import Mathlib

set_option maxHeartbeats 1000000
set_option maxRecDepth 4000

/-!
Formal model of `ppt_analyzer.py`, a single-file PPTX consistency analyzer:
content extraction from slide decks (`extract_pptx_content`), a retrying
Gemini call with brace-scanning JSON response parsing (`analyze_slides`),
and report assembly (`main`).  The JSON decoder/encoder below embeds the
behavior of CPython's `json.loads` / `json.dump(..., indent=2)` (default
C scanner/encoder: strict strings, ASCII-only output), with JSON number
literals kept as their raw character sequences.
-/

/-! ## Character classes and basic string helpers -/

/-- JSON whitespace characters skipped by the CPython json scanner. -/
def isJsonWs (c : Char) : Bool :=
  c.toNat = 32 || c.toNat = 9 || c.toNat = 10 || c.toNat = 13

/-- ASCII decimal digit, as tested by the C json scanner. -/
def isDig (c : Char) : Bool :=
  48 ≤ c.toNat && c.toNat ≤ 57

/-- Whitespace for Python's `str.strip()` (`str.isspace` code points). -/
def isPySpace (c : Char) : Bool :=
  (9 ≤ c.toNat && c.toNat ≤ 13) || (28 ≤ c.toNat && c.toNat ≤ 31) ||
  c.toNat = 32 || c.toNat = 0x85 || c.toNat = 0xA0 || c.toNat = 0x1680 ||
  (0x2000 ≤ c.toNat && c.toNat ≤ 0x200A) || c.toNat = 0x2028 ||
  c.toNat = 0x2029 || c.toNat = 0x202F || c.toNat = 0x205F || c.toNat = 0x3000

/-- Python `s.strip()`: drop leading and trailing whitespace. -/
def pyStrip (s : String) : String :=
  String.mk (((s.data.dropWhile isPySpace).reverse.dropWhile isPySpace).reverse)

/-- Drop leading JSON whitespace. -/
def skipWs : List Char → List Char
  | [] => []
  | c :: cs => if isJsonWs c then skipWs cs else c :: cs

/-- Characters of a string literal. -/
def sChars (s : String) : List Char := s.data

/-- Python `s.find(ch)`: index of first occurrence, if any. -/
def pyFindAux (t : Char) : List Char → Nat → Option Nat
  | [], _ => none
  | c :: cs, i => if c = t then some i else pyFindAux t cs (i + 1)

/-- Python `s.find(ch)` (with `None` for `-1`). -/
def pyFind (s : List Char) (t : Char) : Option Nat := pyFindAux t s 0

/-- Python `s.rfind(ch)`: index of last occurrence, if any. -/
def pyRFind (s : List Char) (t : Char) : Option Nat :=
  match pyFind s.reverse t with
  | some i => some (s.length - 1 - i)
  | none => none

/-- Python slice `s[i:j]` for `0 ≤ i, j`. -/
def sliceList (s : List Char) (i j : Nat) : List Char :=
  (s.drop i).take (j - i)

/-! ## JSON values

Number literals are kept as their raw character sequences: the claims under
study never distinguish two numerically equal literals, and CPython both
emits (`repr`) and re-reads them exactly, so raw storage is round-trip
faithful without modelling floating point. -/

/-- JSON values as produced by `json.loads`. -/
inductive Json where
  | null : Json
  | bool : Bool → Json
  | num : List Char → Json
  | str : List Char → Json
  | arr : List Json → Json
  | obj : List (List Char × Json) → Json

/-- Literal characters of `NaN`. -/
def nanChars : List Char := ['N', 'a', 'N']

/-- Literal characters of `Infinity`. -/
def infChars : List Char := ['I', 'n', 'f', 'i', 'n', 'i', 't', 'y']

/-- Literal characters of `-Infinity`. -/
def negInfChars : List Char := '-' :: infChars

/-- Value of one hexadecimal digit (both cases), as `int(c, 16)` accepts. -/
def hexDigitVal (c : Char) : Option Nat :=
  if 48 ≤ c.toNat && c.toNat ≤ 57 then some (c.toNat - 48)
  else if 97 ≤ c.toNat && c.toNat ≤ 102 then some (c.toNat - 87)
  else if 65 ≤ c.toNat && c.toNat ≤ 70 then some (c.toNat - 55)
  else none

/-- Value of a four-hex-digit escape payload. -/
def hex4 (a b c d : Char) : Option Nat :=
  match hexDigitVal a, hexDigitVal b, hexDigitVal c, hexDigitVal d with
  | some x, some y, some z, some w => some (((x * 16 + y) * 16 + z) * 16 + w)
  | _, _, _, _ => none

/-- Prepend a decoded character to a string-scan result. -/
def consFst (ch : Char) : Option (List Char × List Char) → Option (List Char × List Char)
  | some (s, r) => some (ch :: s, r)
  | none => none

/-- Decode one `\uXXXX` escape payload (the input starts at the first hex
digit), recombining a surrogate pair into one code point.  (CPython would
keep a lone surrogate as a lone surrogate code unit in its string; such a
code point is not a Unicode scalar value, so here a lone surrogate is a
scan failure instead — unreachable from the encoder below, which only emits
paired surrogates.) -/
def parseUEscape : List Char → Option (Char × List Char)
  | a :: b :: c2 :: d :: r2 =>
    match hex4 a b c2 d with
    | none => none
    | some u =>
      if 0xD800 ≤ u ∧ u ≤ 0xDBFF then
        match r2 with
        | s1 :: s2 :: a2 :: b2 :: c3 :: d2 :: r3 =>
          if s1 = '\\' ∧ s2 = 'u' then
            match hex4 a2 b2 c3 d2 with
            | some u2 =>
              if 0xDC00 ≤ u2 ∧ u2 ≤ 0xDFFF then
                some (Char.ofNat (0x10000 + (u - 0xD800) * 0x400 + (u2 - 0xDC00)), r3)
              else none
            | none => none
          else none
        | _ => none
      else if 0xDC00 ≤ u ∧ u ≤ 0xDFFF then none
      else some (Char.ofNat u, r2)
  | _ => none

/-- One fueled scanning pass over a string body; each step consumes at
least one input character, so the fuel `parseStringBody` supplies can never
run out before the input does. -/
def psbGo : Nat → List Char → Option (List Char × List Char)
  | 0, _ => none
  | _ + 1, [] => none
  | f + 1, c :: rest =>
    if c = '"' then some ([], rest)
    else if c = '\\' then
      match rest with
      | [] => none
      | e :: r =>
        if e = '"' then consFst '"' (psbGo f r)
        else if e = '\\' then consFst '\\' (psbGo f r)
        else if e = '/' then consFst '/' (psbGo f r)
        else if e = 'b' then consFst (Char.ofNat 8) (psbGo f r)
        else if e = 'f' then consFst (Char.ofNat 12) (psbGo f r)
        else if e = 'n' then consFst '\n' (psbGo f r)
        else if e = 'r' then consFst (Char.ofNat 13) (psbGo f r)
        else if e = 't' then consFst '\t' (psbGo f r)
        else if e = 'u' then
          match parseUEscape r with
          | some (ch, r2) => consFst ch (psbGo f r2)
          | none => none
        else none
    else if c.toNat < 32 then none
    else consFst c (psbGo f rest)

/-- Body of a JSON string after the opening quote, per the strict C
scanner: raw control characters are rejected, escapes are decoded. -/
def parseStringBody (s : List Char) : Option (List Char × List Char) :=
  psbGo s.length s

/-- Munch a maximal run of ASCII digits. -/
def munchDigits : List Char → List Char × List Char
  | [] => ([], [])
  | c :: cs =>
    if isDig c then
      let p := munchDigits cs
      (c :: p.1, p.2)
    else ([], c :: cs)

/-- Integer part of a JSON number: `0` or a nonzero digit followed by digits
(the scanner regex group `(0|[1-9]\d*)`, so `01` scans as `0`). -/
def parseIntPart : List Char → Option (List Char × List Char)
  | [] => none
  | c :: r =>
    if c = '0' then some (['0'], r)
    else if isDig c then
      let p := munchDigits r
      some (c :: p.1, p.2)
    else none

/-- Optional fraction part (regex group `(\.\d+)?`). -/
def parseFrac : List Char → List Char × List Char
  | [] => ([], [])
  | c :: r =>
    if c = '.' then
      match r with
      | [] => ([], [c])
      | c2 :: r2 =>
        if isDig c2 then
          let p := munchDigits r2
          ('.' :: c2 :: p.1, p.2)
        else ([], c :: c2 :: r2)
    else ([], c :: r)

/-- Optional exponent part (regex group `([eE][-+]?\d+)?`). -/
def parseExp (s : List Char) : List Char × List Char :=
  match s with
  | e :: rest =>
    if e = 'e' ∨ e = 'E' then
      match rest with
      | c :: r =>
        if isDig c then
          let p := munchDigits r
          (e :: c :: p.1, p.2)
        else
          if c = '+' ∨ c = '-' then
            match r with
            | c2 :: r2 =>
              if isDig c2 then
                let p := munchDigits r2
                (e :: c :: c2 :: p.1, p.2)
              else ([], s)
            | [] => ([], s)
          else ([], s)
      | [] => ([], s)
    else ([], s)
  | [] => ([], [])

/-- A JSON number token, returned as its raw characters. -/
def parseNumberTok : List Char → Option (List Char × List Char)
  | [] => none
  | c :: r =>
    if c = '-' then
      match parseIntPart r with
      | some (ip, r2) =>
        let f := parseFrac r2
        let e := parseExp f.2
        some ('-' :: (ip ++ (f.1 ++ e.1)), e.2)
      | none => none
    else
      match parseIntPart (c :: r) with
      | some (ip, r2) =>
        let f := parseFrac r2
        let e := parseExp f.2
        some (ip ++ (f.1 ++ e.1), e.2)
      | none => none

/-- Python `dict` assignment semantics for building an object from scanned
pairs: an existing key keeps its position and takes the new value, a new key
is appended. -/
def dictInsert (acc : List (List Char × Json)) (kv : List Char × Json) :
    List (List Char × Json) :=
  if acc.any (fun p => p.1 = kv.1) then
    acc.map (fun p => if p.1 = kv.1 then (p.1, kv.2) else p)
  else acc ++ [kv]

/-- Strip an expected literal from the front of the input, if present. -/
def stripLit : List Char → List Char → Option (List Char)
  | [], s => some s
  | c :: p, d :: s => if d = c then stripLit p s else none
  | _ :: _, [] => none

/-- The constant literals the scanner recognizes, tried in CPython's order:
`null`, `true`, `false`, `NaN`, `Infinity`, `-Infinity`. -/
def parseConst (s : List Char) : Option (Json × List Char) :=
  match stripLit (sChars "null") s with
  | some r => some (Json.null, r)
  | none =>
  match stripLit (sChars "true") s with
  | some r => some (Json.bool true, r)
  | none =>
  match stripLit (sChars "false") s with
  | some r => some (Json.bool false, r)
  | none =>
  match stripLit nanChars s with
  | some r => some (Json.num nanChars, r)
  | none =>
  match stripLit infChars s with
  | some r => some (Json.num infChars, r)
  | none =>
  match stripLit negInfChars s with
  | some r => some (Json.num negInfChars, r)
  | none => none

/-! ## The JSON scanner

A fueled recursive-descent scanner following CPython's C scanner.  Fuel only
bounds nesting of the three mutual functions; every unit of fuel spent
corresponds to at least one consumed input character, so the fuel chosen in
`loads` never runs out on input that scans successfully. -/

mutual

/-- Scan one JSON value (after skipping whitespace). -/
def parseValue : Nat → List Char → Option (Json × List Char)
  | 0, _ => none
  | fuel + 1, s0 =>
    match skipWs s0 with
    | [] => none
    | c :: r =>
      if c = '{' then
        if (skipWs r).head? = some '}' then some (Json.obj [], (skipWs r).tail)
        else
          match parseMembers fuel (skipWs r) with
          | some (pairs, r3) => some (Json.obj (List.foldl dictInsert [] pairs), r3)
          | none => none
      else if c = '[' then
        if (skipWs r).head? = some ']' then some (Json.arr [], (skipWs r).tail)
        else
          match parseItems fuel (skipWs r) with
          | some (vs, r3) => some (Json.arr vs, r3)
          | none => none
      else if c = '"' then
        match parseStringBody r with
        | some (str2, r2) => some (Json.str str2, r2)
        | none => none
      else
        match parseConst (c :: r) with
        | some res => some res
        | none =>
          match parseNumberTok (c :: r) with
          | some (raw, r2) => some (Json.num raw, r2)
          | none => none

/-- Scan the items of a nonempty array up to and including the closing `]`. -/
def parseItems : Nat → List Char → Option (List Json × List Char)
  | 0, _ => none
  | fuel + 1, s =>
    match parseValue fuel s with
    | none => none
    | some (v, r) =>
      match skipWs r with
      | [] => none
      | c :: r2 =>
        if c = ',' then
          match parseItems fuel r2 with
          | some (vs, r3) => some (v :: vs, r3)
          | none => none
        else if c = ']' then some ([v], r2)
        else none

/-- Scan the members of a nonempty object up to and including the closing
`}`, as raw key/value pairs in input order. -/
def parseMembers : Nat → List Char → Option (List (List Char × Json) × List Char)
  | 0, _ => none
  | fuel + 1, s =>
    match skipWs s with
    | [] => none
    | c :: r =>
      if c = '"' then
        match parseStringBody r with
        | none => none
        | some (key, r2) =>
          match skipWs r2 with
          | [] => none
          | c2 :: r3 =>
            if c2 = ':' then
              match parseValue fuel r3 with
              | none => none
              | some (v, r4) =>
                match skipWs r4 with
                | [] => none
                | c3 :: r5 =>
                  if c3 = ',' then
                    match parseMembers fuel r5 with
                    | some (ps, r6) => some ((key, v) :: ps, r6)
                    | none => none
                  else if c3 = '}' then some ([(key, v)], r5)
                  else none
            else none
      else none

end

/-- `json.loads`: scan one document, then require only whitespace to follow. -/
def loads (s : List Char) : Option Json :=
  match parseValue (s.length + 1) s with
  | some (v, rest) => if skipWs rest = [] then some v else none
  | none => none

/-! ## The JSON encoder (`json.dump(..., indent=2)`) -/

/-- Indentation prefix at a nesting level (`indent=2`). -/
def indentChars (lvl : Nat) : List Char := List.replicate (2 * lvl) ' '

/-- Lowercase hexadecimal digit. -/
def hexDigitChar (d : Nat) : Char :=
  if d < 10 then Char.ofNat (48 + d) else Char.ofNat (87 + d)

/-- A `\uXXXX` escape for a code unit below `0x10000`. -/
def hexEsc (n : Nat) : List Char :=
  ['\\', 'u', hexDigitChar (n / 4096 % 16), hexDigitChar (n / 256 % 16),
   hexDigitChar (n / 16 % 16), hexDigitChar (n % 16)]

/-- ASCII-only escaping of one character, as CPython's C encoder does with
`ensure_ascii=True`: printable ASCII other than `"` and `\` is kept, the
short escapes are used where they exist, everything else becomes `\uXXXX`
(a surrogate pair beyond the BMP). -/
def escChar (c : Char) : List Char :=
  if c = '"' then ['\\', '"']
  else if c = '\\' then ['\\', '\\']
  else if c.toNat = 8 then ['\\', 'b']
  else if c.toNat = 9 then ['\\', 't']
  else if c.toNat = 10 then ['\\', 'n']
  else if c.toNat = 12 then ['\\', 'f']
  else if c.toNat = 13 then ['\\', 'r']
  else if c.toNat < 32 then hexEsc c.toNat
  else if c.toNat < 127 then [c]
  else if c.toNat ≤ 0xFFFF then hexEsc c.toNat
  else
    hexEsc (0xD800 + (c.toNat - 0x10000) / 0x400) ++
      hexEsc (0xDC00 + (c.toNat - 0x10000) % 0x400)

/-- Escape a whole string body. -/
def escString : List Char → List Char
  | [] => []
  | c :: cs => escChar c ++ escString cs

mutual

/-- Encode one JSON value at a nesting level, exactly as
`json.dump(..., indent=2)` lays it out. -/
def encodeVal : Nat → Json → List Char
  | _, Json.null => ['n', 'u', 'l', 'l']
  | _, Json.bool true => ['t', 'r', 'u', 'e']
  | _, Json.bool false => ['f', 'a', 'l', 's', 'e']
  | _, Json.num raw => raw
  | _, Json.str s => '"' :: (escString s ++ ['"'])
  | _, Json.arr [] => ['[', ']']
  | lvl, Json.arr (v :: vs) =>
    '[' :: '\n' :: (indentChars (lvl + 1) ++ encodeVal (lvl + 1) v ++
      encodeTail (lvl + 1) vs ++ '\n' :: (indentChars lvl ++ [']']))
  | _, Json.obj [] => ['{', '}']
  | lvl, Json.obj (f :: fs) =>
    '{' :: '\n' :: (indentChars (lvl + 1) ++ encodeField (lvl + 1) f ++
      encodeFieldsTail (lvl + 1) fs ++ '\n' :: (indentChars lvl ++ ['}']))

/-- Encode the remaining array items, each preceded by `,\n` and indent. -/
def encodeTail : Nat → List Json → List Char
  | _, [] => []
  | lvl, v :: vs => ',' :: '\n' :: (indentChars lvl ++ encodeVal lvl v ++ encodeTail lvl vs)

/-- Encode one `"key": value` member. -/
def encodeField : Nat → List Char × Json → List Char
  | lvl, (k, v) => '"' :: (escString k ++ '"' :: ':' :: ' ' :: encodeVal lvl v)

/-- Encode the remaining object members, each preceded by `,\n` and indent. -/
def encodeFieldsTail : Nat → List (List Char × Json) → List Char
  | _, [] => []
  | lvl, f :: fs => ',' :: '\n' :: (indentChars lvl ++ encodeField lvl f ++ encodeFieldsTail lvl fs)

end

/-- `json.dump(v, f, indent=2)`: the exact character stream written. -/
def dumps (v : Json) : List Char := encodeVal 0 v

/-! ## Response parsing (`analyze_slides`, lines 153-170) -/

/-- First value for a key in scanned object members. -/
def lookupKey : List (List Char × Json) → List Char → Option Json
  | [], _ => none
  | p :: ps, k => if p.1 = k then some p.2 else lookupKey ps k

/-- Lines 153-170 of `analyze_slides`: find the first `{` and last `}` of the
reply, decode the enclosed substring with `json.loads`, and return the
`inconsistencies` field (default `[]`).  A missing delimiter or a decode
error returns `[]` via the explicit `return []` branches; when the decoded
document is not an object, `data.get` raises `AttributeError`, which the
enclosing `except Exception` handler (line 176) turns into the same `[]`. -/
def parseResponse (reply : String) : Json :=
  let s := sChars reply
  match pyFind s '{', pyRFind s '}' with
  | some start_idx, some end_idx =>
    let json_str := sliceList s start_idx (end_idx + 1)
    match loads json_str with
    | none => Json.arr []
    | some (Json.obj fields) =>
      match lookupKey fields (sChars "inconsistencies") with
      | some v => v
      | none => Json.arr []
    | some _ => Json.arr []
  | _, _ => Json.arr []

/-- Modelled from the spec (§4.4): locate the first `{` and the last `}`,
treat the enclosed substring as a JSON document; if either delimiter is
absent or the substring does not decode, return the empty list; on success
read the `inconsistencies` array field, defaulting to empty if absent. -/
def refParseResponse (reply : String) : Json :=
  match pyFind (sChars reply) '{', pyRFind (sChars reply) '}' with
  | some i, some j =>
    match loads (sliceList (sChars reply) i (j + 1)) with
    | some doc =>
      match doc with
      | Json.obj fields => (lookupKey fields (sChars "inconsistencies")).getD (Json.arr [])
      | _ => Json.arr []
    | none => Json.arr []
  | _, _ => Json.arr []

/-! ## Content extraction (`extract_pptx_content`, lines 62-126)

A slide deck is modelled abstractly: each slide has an optional title
placeholder text and a list of non-title shapes; a shape may carry a text
frame (its paragraphs' texts), a table (rows of raw cell texts) and/or a
picture.  A picture carries the two effects visible in the code: whether
`shape.image.save(tmp.name)` succeeds (it runs *outside* the inner
`try`/`finally`, so its failure propagates out of the slide loop), and the
outcome of `Image.open` + `pytesseract.image_to_string` (`none` models an
exception caught by the inner `except`, `some t` the OCR text). -/

/-- An image shape's extraction behavior. -/
structure Picture where
  saveOk : Bool
  ocr : Option String

/-- A non-title shape on a slide. -/
structure Shape where
  textFrame : Option (List String)
  table : Option (List (List String))
  picture : Option Picture

/-- A slide: optional title placeholder text, then the non-title shapes. -/
structure Slide where
  title : Option String
  shapes : List Shape

/-- Output of processing a run of shapes: content fragments appended, one
deletion flag per temporary image file created (`true` iff `os.unlink` ran),
and whether control flowed past them without an exception. -/
structure ShapeOut where
  frags : List String
  tmps : List Bool
  ok : Bool

/-- Lines 86-90: join the non-empty paragraph texts with `" | "`; append the
result if non-empty. -/
def textFrameFragment (paras : List String) : List String :=
  let text := String.intercalate " | " (paras.filter (fun p => p ≠ ""))
  if text ≠ "" then [text] else []

/-- Lines 93-99: strip each cell text, join cells with `" | "`, join rows
with newlines, prefix `TABLE: `. -/
def tableFragment (rows : List (List String)) : String :=
  "TABLE: " ++ String.intercalate "\n"
    (rows.map (fun row => String.intercalate " | " (row.map pyStrip)))

/-- Lines 103-116: save the image to a fresh temporary file (a failure here
propagates and the `finally` never runs), then OCR inside `try`/`finally`:
an OCR failure is logged and skipped, the file is unlinked either way. -/
def pictureOut (p : Picture) : ShapeOut :=
  if p.saveOk then
    match p.ocr with
    | none => { frags := [], tmps := [true], ok := true }
    | some t =>
      let ocr_text := pyStrip t
      { frags := if ocr_text ≠ "" then ["IMAGE: " ++ ocr_text] else []
        tmps := [true], ok := true }
  else { frags := [], tmps := [false], ok := false }

/-- Lines 81-116: one non-title shape, in source order (text frame, table,
then picture). -/
def shapeOut (sh : Shape) : ShapeOut :=
  let tf := match sh.textFrame with
    | some ps => textFrameFragment ps
    | none => []
  let tb := match sh.table with
    | some rows => [tableFragment rows]
    | none => []
  match sh.picture with
  | none => { frags := tf ++ tb, tmps := [], ok := true }
  | some p =>
    let po := pictureOut p
    { frags := tf ++ tb ++ po.frags, tmps := po.tmps, ok := po.ok }

/-- Lines 76-79: the `TITLE:` fragment when the title placeholder exists and
its stripped text is non-empty. -/
def titleFragment (sl : Slide) : List String :=
  match sl.title with
  | some t => if pyStrip t ≠ "" then ["TITLE: " ++ pyStrip t] else []
  | none => []

/-- Process a slide's non-title shapes in order, stopping at an exception. -/
def slideShapesOut : List Shape → ShapeOut
  | [] => { frags := [], tmps := [], ok := true }
  | sh :: rest =>
    let o := shapeOut sh
    if o.ok then
      let r := slideShapesOut rest
      { frags := o.frags ++ r.frags, tmps := o.tmps ++ r.tmps, ok := r.ok }
    else o

/-- All content fragments of one slide (the `content` list at line 118). -/
def slideFrags (sl : Slide) : List String :=
  titleFragment sl ++ (slideShapesOut sl.shapes).frags

/-- Result of extraction: the `slide_data` mapping when no exception escaped
(`none` models the re-raise at line 126), plus the temp-file record. -/
structure ExtractOut where
  slideData : Option (List (Nat × String))
  tmps : List Bool

/-- Lines 70-121: number slides from `n`, joining each slide's fragments
with newlines; an exception discards the mapping but not the file-system
effects already performed. -/
def extractSlides : Nat → List Slide → ExtractOut
  | _, [] => { slideData := some [], tmps := [] }
  | n, sl :: rest =>
    let so := slideShapesOut sl.shapes
    if so.ok then
      let r := extractSlides (n + 1) rest
      { slideData := r.slideData.map
          (fun m => (n, String.intercalate "\n" (slideFrags sl)) :: m)
        tmps := so.tmps ++ r.tmps }
    else { slideData := none, tmps := so.tmps }

/-- `extract_pptx_content`, given a deck that opened successfully. -/
def extract_pptx_content (deck : List Slide) : ExtractOut :=
  extractSlides 1 deck

/-- The `slide_data` entries extraction produces when no exception occurs. -/
def deckRender : Nat → List Slide → List (Nat × String)
  | _, [] => []
  | n, sl :: rest =>
    (n, String.intercalate "\n" (slideFrags sl)) :: deckRender (n + 1) rest

/-- Pictures whose temporary files are actually created, in processing
order: processing stops at the first failing save. -/
def picsScan : List Shape → List Picture
  | [] => []
  | sh :: rest =>
    match sh.picture with
    | none => picsScan rest
    | some p => if p.saveOk then p :: picsScan rest else [p]

/-- The created temporary files of a whole deck, in processing order. -/
def deckPics : List Slide → List Picture
  | [] => []
  | sl :: rest =>
    let ps := picsScan sl.shapes
    if ps.all (fun p => p.saveOk) then ps ++ deckPics rest else ps

/-- Replace a picture whose OCR fails by one whose OCR yields no text:
the claimed observable effect of a recovered OCR error. -/
def scrubShape (sh : Shape) : Shape :=
  { textFrame := sh.textFrame, table := sh.table,
    picture := sh.picture.map (fun p => { saveOk := p.saveOk, ocr := some (p.ocr.getD "") }) }

/-- Apply `scrubShape` across a slide. -/
def scrubSlide (sl : Slide) : Slide :=
  { title := sl.title, shapes := sl.shapes.map scrubShape }

/-! ## The model call with retries (`analyze_slides`, lines 141-187)

The external service and the debug-file write are an oracle per attempt
index; `random.uniform(0, 5)` is a jitter oracle.  Sleeps record the exact
argument of `time.sleep` as a rational. -/

/-- Outcome of one `generate_content` attempt together with the debug write
of `gemini_response.txt` (lines 145-151). -/
inductive CallOutcome where
  | ok (reply : String)
  | writeFail (reply : String)
  | rateLimited
  | failed

/-- Observable result of `analyze_slides`: the returned value, the sleeps
performed in order, and how many attempts ran. -/
structure AnalyzeOut where
  result : Json
  sleeps : List ℚ
  attempts : Nat

/-- The `for attempt in range(3)` loop, lines 142-182.  A successful call
and write proceeds to response parsing and returns its result; a failing
debug write or any other non-rate-limit exception hits the generic handler
(line 176) and returns `[]`; `ResourceExhausted` sleeps
`10 * 2 ** attempt + random.uniform(0, 5)` and retries; an exhausted loop
returns `[]` (line 182). -/
def attemptLoop (oracle : Nat → CallOutcome) (jitter : Nat → ℚ) :
    List Nat → List ℚ → Nat → AnalyzeOut
  | [], sleeps, att => { result := Json.arr [], sleeps := sleeps, attempts := att }
  | k :: rest, sleeps, att =>
    match oracle k with
    | CallOutcome.ok reply =>
      { result := parseResponse reply, sleeps := sleeps, attempts := att + 1 }
    | CallOutcome.writeFail _ =>
      { result := Json.arr [], sleeps := sleeps, attempts := att + 1 }
    | CallOutcome.failed =>
      { result := Json.arr [], sleeps := sleeps, attempts := att + 1 }
    | CallOutcome.rateLimited =>
      attemptLoop oracle jitter rest (sleeps ++ [10 * 2 ^ k + jitter k]) (att + 1)

/-- `analyze_slides` as observed through its oracles. -/
def analyze_slides (oracle : Nat → CallOutcome) (jitter : Nat → ℚ) : AnalyzeOut :=
  attemptLoop oracle jitter [0, 1, 2] [] 0

/-! ## Report assembly (`main`, lines 211-226) -/

/-- Decimal digits of a natural number, as Python renders an `int`. -/
def natLit (n : Nat) : List Char :=
  if h : n < 10 then [Char.ofNat (48 + n)]
  else natLit (n / 10) ++ [Char.ofNat (48 + n % 10)]
decreasing_by exact Nat.div_lt_self (by omega) (by omega)

/-- Python `len` on a JSON value (`None` models a `TypeError`). -/
def pyLen : Json → Option Nat
  | Json.arr l => some l.length
  | Json.str s => some s.length
  | Json.obj fs => some fs.length
  | _ => none

/-- A wall-clock reading, as `time.localtime` exposes it. -/
structure Tm where
  year : Nat
  mon : Nat
  mday : Nat
  hour : Nat
  minute : Nat
  sec : Nat

/-- Two-digit zero-padded field (`%m`, `%d`, `%H`, `%M`, `%S`). -/
def pad2 (n : Nat) : List Char :=
  if n < 10 then '0' :: natLit n else natLit n

/-- `time.strftime("%Y-%m-%d %H:%M:%S")`. -/
def strftimeReport (t : Tm) : List Char :=
  natLit t.year ++ '-' :: (pad2 t.mon ++ '-' :: (pad2 t.mday ++
    ' ' :: (pad2 t.hour ++ ':' :: (pad2 t.minute ++ ':' :: pad2 t.sec))))

/-- Lines 212-219: the `output` dict, provided `len(inconsistencies)`
succeeded (otherwise `main` raises before building it). -/
def mainOutput (slide_data : List (Nat × String)) (incons : Json) (t : Tm) :
    Option Json :=
  (pyLen incons).map (fun issues => Json.obj [
    (sChars "statistics", Json.obj [
      (sChars "total_slides", Json.num (natLit slide_data.length)),
      (sChars "issues_found", Json.num (natLit issues)),
      (sChars "analysis_time", Json.str (strftimeReport t))]),
    (sChars "inconsistencies", incons)])

/-- Field access on a decoded JSON object. -/
def objField (j : Json) (k : List Char) : Option Json :=
  match j with
  | Json.obj fields => lookupKey fields k
  | _ => none

/-- The shape `YYYY-MM-DD HH:MM:SS`: nineteen characters, digits in the
date/time positions, `-`, space and `:` separators. -/
def isTimestampFormat : List Char → Prop
  | [y1, y2, y3, y4, s1, m1, m2, s2, d1, d2, s3,
     h1, h2, s4, i1, i2, s5, c1, c2] =>
    isDig y1 = true ∧ isDig y2 = true ∧ isDig y3 = true ∧ isDig y4 = true ∧
    s1 = '-' ∧ isDig m1 = true ∧ isDig m2 = true ∧ s2 = '-' ∧
    isDig d1 = true ∧ isDig d2 = true ∧ s3 = ' ' ∧
    isDig h1 = true ∧ isDig h2 = true ∧ s4 = ':' ∧
    isDig i1 = true ∧ isDig i2 = true ∧ s5 = ':' ∧
    isDig c1 = true ∧ isDig c2 = true
  | _ => False

/-! ## Shape of scanner output (needed for the round-trip theorem) -/

/-- The integer-part group `(0|[1-9]\d*)` of the number token grammar. -/
def IntPartTok (ip : List Char) : Prop :=
  ip = ['0'] ∨ ∃ c ds, ip = c :: ds ∧ 49 ≤ c.toNat ∧ c.toNat ≤ 57 ∧
    ∀ d ∈ ds, isDig d = true

/-- The optional fraction group `(\.\d+)?`. -/
def FracTok (fp : List Char) : Prop :=
  fp = [] ∨ ∃ ds, fp = '.' :: ds ∧ ds ≠ [] ∧ ∀ d ∈ ds, isDig d = true

/-- The optional exponent group `([eE][-+]?\d+)?`. -/
def ExpTok (ep : List Char) : Prop :=
  ep = [] ∨ ∃ e sg ds, ep = e :: (sg ++ ds) ∧ (e = 'e' ∨ e = 'E') ∧
    (sg = [] ∨ sg = ['+'] ∨ sg = ['-']) ∧ ds ≠ [] ∧ ∀ d ∈ ds, isDig d = true

/-- A complete JSON number token. -/
def IsNumTok (s : List Char) : Prop :=
  ∃ sg ip fp ep, s = sg ++ (ip ++ (fp ++ ep)) ∧ (sg = [] ∨ sg = ['-']) ∧
    IntPartTok ip ∧ FracTok fp ∧ ExpTok ep

/-- A number literal the scanner can produce: a number token or one of the
special constants. -/
def NumLit (s : List Char) : Prop :=
  IsNumTok s ∨ s = nanChars ∨ s = infChars ∨ s = negInfChars

/-- JSON values in the image of the scanner: object keys are distinct (the
`dict` semantics collapse duplicates) and number literals are lexically
valid. -/
inductive WfJson : Json → Prop
  | null : WfJson Json.null
  | bool (b : Bool) : WfJson (Json.bool b)
  | num (raw : List Char) : NumLit raw → WfJson (Json.num raw)
  | str (s : List Char) : WfJson (Json.str s)
  | arr (l : List Json) : (∀ v ∈ l, WfJson v) → WfJson (Json.arr l)
  | obj (fs : List (List Char × Json)) : (fs.map Prod.fst).Nodup →
      (∀ p ∈ fs, WfJson p.2) → WfJson (Json.obj fs)

/-- A context in which a number token cannot be extended: the next character
(if any) continues no part of the number grammar. -/
def Stopper : List Char → Prop
  | [] => True
  | c :: _ => isDig c = false ∧ c ≠ '.' ∧ c ≠ 'e' ∧ c ≠ 'E'

mutual

/-- Enough fuel for `parseValue` to scan this value's encoding. -/
def fuelVal : Json → Nat
  | Json.arr [] => 1
  | Json.arr (v :: vs) => 1 + fuelItems (v :: vs)
  | Json.obj [] => 1
  | Json.obj (f :: fs) => 1 + fuelMembers (f :: fs)
  | _ => 1

/-- Enough fuel for `parseItems` on the encoded items. -/
def fuelItems : List Json → Nat
  | [] => 1
  | v :: vs => 1 + fuelVal v + fuelItems vs

/-- Enough fuel for `parseMembers` on the encoded members. -/
def fuelMembers : List (List Char × Json) → Nat
  | [] => 1
  | f :: fs => 1 + fuelVal f.2 + fuelMembers fs

end

/-! # Theorems -/

/-! ## Extraction: helper lemmas -/

theorem pictureOut_ok (p : Picture) : (pictureOut p).ok = p.saveOk := by
  cases ho : p.ocr <;> by_cases hs : p.saveOk <;> simp [pictureOut, hs, ho]

theorem pictureOut_tmps (p : Picture) : (pictureOut p).tmps = [p.saveOk] := by
  cases ho : p.ocr <;> by_cases hs : p.saveOk <;> simp [pictureOut, hs, ho]

theorem extractSlides_render (deck : List Slide) :
    ∀ n m, (extractSlides n deck).slideData = some m → m = deckRender n deck := by
  induction deck with
  | nil =>
    intro n m h
    have h2 : some ([] : List (Nat × String)) = some m := h
    cases h2
    rfl
  | cons sl rest ih =>
    intro n m h
    by_cases hok : (slideShapesOut sl.shapes).ok
    · simp only [extractSlides, hok, if_true] at h
      cases hr : (extractSlides (n + 1) rest).slideData with
      | none => rw [hr] at h; cases h
      | some m2 =>
        rw [hr] at h
        have h2 : some ((n, String.intercalate "\n" (slideFrags sl)) :: m2) = some m := h
        cases h2
        rw [deckRender, ← ih (n + 1) m2 hr]
    · simp [extractSlides, hok] at h

theorem deckRender_keys (deck : List Slide) :
    ∀ n, (deckRender n deck).map Prod.fst = List.range' n deck.length := by
  induction deck with
  | nil => intro n; rfl
  | cons sl rest ih =>
    intro n
    simp only [deckRender, List.map_cons, List.length_cons, List.range'_succ, ih (n + 1)]

theorem deckRender_mem (deck : List Slide) :
    ∀ n i (hi : i < deck.length),
      (n + i, String.intercalate "\n" (slideFrags (deck.get ⟨i, hi⟩))) ∈
        deckRender n deck := by
  induction deck with
  | nil => intro n i hi; exact absurd hi (Nat.not_lt_zero i)
  | cons sl rest ih =>
    intro n i hi
    cases i with
    | zero => exact List.mem_cons_self _ _
    | succ j =>
      have := ih (n + 1) j (Nat.lt_of_succ_lt_succ hi)
      have harith : n + 1 + j = n + (j + 1) := by omega
      rw [harith] at this
      exact List.mem_cons_of_mem _ this

theorem slideShapesOut_tmps (shapes : List Shape) :
    (slideShapesOut shapes).tmps = (picsScan shapes).map Picture.saveOk ∧
    (slideShapesOut shapes).ok = (picsScan shapes).all Picture.saveOk := by
  induction shapes with
  | nil => exact ⟨rfl, rfl⟩
  | cons sh rest ih =>
    cases hp : sh.picture with
    | none =>
      have hok : (shapeOut sh).ok = true := by simp [shapeOut, hp]
      have htm : (shapeOut sh).tmps = [] := by simp [shapeOut, hp]
      simp [slideShapesOut, hok, htm, picsScan, hp, ih.1, ih.2]
    | some p =>
      have hok : (shapeOut sh).ok = p.saveOk := by simp [shapeOut, hp, pictureOut_ok]
      have htm : (shapeOut sh).tmps = [p.saveOk] := by simp [shapeOut, hp, pictureOut_tmps]
      by_cases hs : p.saveOk
      · simp [slideShapesOut, hok, htm, picsScan, hp, hs, ih.1, ih.2]
      · have hsf : p.saveOk = false := by simpa using hs
        simp [slideShapesOut, hok, htm, picsScan, hp, hsf]

theorem extractSlides_tmps (deck : List Slide) :
    ∀ n, (extractSlides n deck).tmps = (deckPics deck).map Picture.saveOk := by
  induction deck with
  | nil => intro n; rfl
  | cons sl rest ih =>
    intro n
    obtain ⟨htm, hok⟩ := slideShapesOut_tmps sl.shapes
    by_cases h : (slideShapesOut sl.shapes).ok
    · have hall : (picsScan sl.shapes).all Picture.saveOk = true := by rw [← hok]; exact h
      simp [extractSlides, h, deckPics, hall, htm, ih (n + 1)]
    · have hall : (picsScan sl.shapes).all Picture.saveOk = false := by
        rw [← hok]; simpa using h
      simp [extractSlides, h, deckPics, hall, htm]

theorem slideShapesOut_ok_of_saves (shapes : List Shape)
    (h : ∀ sh ∈ shapes, sh.picture.all (fun p => p.saveOk) = true) :
    (slideShapesOut shapes).ok = true := by
  rw [(slideShapesOut_tmps shapes).2]
  induction shapes with
  | nil => rfl
  | cons sh rest ih =>
    have hsh := h sh (List.mem_cons_self _ _)
    have hrest := ih (fun s hs => h s (List.mem_cons_of_mem _ hs))
    cases hp : sh.picture with
    | none => simpa [picsScan, hp] using hrest
    | some p =>
      rw [hp] at hsh
      simp only [Option.all] at hsh
      simp [picsScan, hp, hsh, hrest]

theorem extractSlides_ok_of_saves (deck : List Slide)
    (h : ∀ sl ∈ deck, ∀ sh ∈ sl.shapes, sh.picture.all (fun p => p.saveOk) = true) :
    ∀ n, (extractSlides n deck).slideData = some (deckRender n deck) := by
  induction deck with
  | nil => intro n; rfl
  | cons sl rest ih =>
    intro n
    have hok := slideShapesOut_ok_of_saves sl.shapes (h sl (List.mem_cons_self _ _))
    have hrest := ih (fun s hs => h s (List.mem_cons_of_mem _ hs)) (n + 1)
    simp [extractSlides, hok, hrest, deckRender]

theorem shapeOut_scrub (sh : Shape) : shapeOut (scrubShape sh) = shapeOut sh := by
  cases hp : sh.picture with
  | none => simp [shapeOut, scrubShape, hp]
  | some p =>
    cases ho : p.ocr with
    | none => simp [shapeOut, scrubShape, hp, ho, pictureOut, pyStrip]
    | some t => simp [shapeOut, scrubShape, hp, ho, pictureOut]

theorem slideFrags_scrub (sl : Slide) : slideFrags (scrubSlide sl) = slideFrags sl := by
  have hshapes : ∀ shapes : List Shape,
      slideShapesOut (shapes.map scrubShape) = slideShapesOut shapes := by
    intro shapes
    induction shapes with
    | nil => rfl
    | cons sh rest ih => simp only [List.map_cons, slideShapesOut, shapeOut_scrub, ih]
  have h1 : titleFragment (scrubSlide sl) = titleFragment sl := rfl
  have h2 : slideFrags (scrubSlide sl) =
      titleFragment (scrubSlide sl) ++ (slideShapesOut (sl.shapes.map scrubShape)).frags := rfl
  rw [h2, h1, hshapes sl.shapes]
  rfl

theorem deckRender_scrub (deck : List Slide) :
    ∀ n, deckRender n (deck.map scrubSlide) = deckRender n deck := by
  induction deck with
  | nil => intro n; rfl
  | cons sl rest ih =>
    intro n
    simp only [List.map_cons, deckRender, slideFrags_scrub, ih (n + 1)]

/-! ## C3: keys of the extracted mapping -/

/-- C3 (confirmed): whenever extraction returns a mapping, it has exactly
one entry per slide, its keys are the contiguous 1-based sequence
`1..n` in document order, and a slide with zero content fragments is mapped
to the empty string rather than omitted. -/
theorem c3_extraction_keys_contiguous (deck : List Slide) (m : List (Nat × String))
    (h : (extract_pptx_content deck).slideData = some m) :
    m.map Prod.fst = List.range' 1 deck.length ∧
    m.length = deck.length ∧
    ∀ i (hi : i < deck.length), slideFrags (deck.get ⟨i, hi⟩) = [] → (i + 1, "") ∈ m := by
  have hm := extractSlides_render deck 1 m h
  subst hm
  refine ⟨deckRender_keys deck 1, ?_, ?_⟩
  · have := congrArg List.length (deckRender_keys deck 1)
    simpa using this
  · intro i hi hfr
    have := deckRender_mem deck 1 i hi
    rw [hfr] at this
    simpa [Nat.add_comm] using this

/-- Witness for C3 on a two-slide deck whose first slide is content-free. -/
theorem c3_extraction_keys_contiguous_witness :
    (extract_pptx_content [{ title := none, shapes := [] },
        { title := some " Q1 ", shapes := [] }]).slideData =
      some [(1, ""), (2, "TITLE: Q1")] ∧
    ([(1, ""), (2, "TITLE: Q1")].map Prod.fst = List.range' 1 2 ∧
     [(1, ""), (2, "TITLE: Q1")].length = 2 ∧
     ∀ i (hi : i < ([{ title := none, shapes := [] },
        { title := some " Q1 ", shapes := [] }] : List Slide).length),
       slideFrags (([{ title := none, shapes := [] },
        { title := some " Q1 ", shapes := [] }] : List Slide).get ⟨i, hi⟩) = [] →
       (i + 1, "") ∈ [(1, ""), (2, "TITLE: Q1")]) :=
  ⟨rfl, c3_extraction_keys_contiguous
    [{ title := none, shapes := [] }, { title := some " Q1 ", shapes := [] }]
    [(1, ""), (2, "TITLE: Q1")] (by rfl)⟩

/-! ## C4: image failures during extraction -/

/-- C4 counterexample: a deck with one image shape whose raw-image save
fails.  The save runs outside the inner `try`/`finally` (line 105), so the
exception propagates and extraction fails — contradicting the claim that a
failure while extracting an image never causes extraction to fail. -/
theorem c4_counterexample :
    (extract_pptx_content [{ title := none, shapes :=
      [{ textFrame := none, table := none,
         picture := some { saveOk := false, ocr := none } }] }]).slideData = none := rfl

/-- C4 as amended: a failure while *opening or OCR-processing* a saved
image never causes extraction to fail — its text is omitted and the rest of
the deck extracts exactly as if that image had carried no text — but a
failure of the raw-image save itself (line 105) is outside the protection
and aborts extraction. -/
theorem c4_ocr_failures_nonfatal (deck : List Slide)
    (hsave : ∀ sl ∈ deck, ∀ sh ∈ sl.shapes, sh.picture.all (fun p => p.saveOk) = true) :
    (extract_pptx_content deck).slideData = some (deckRender 1 deck) ∧
    deckRender 1 (deck.map scrubSlide) = deckRender 1 deck := by
  exact ⟨extractSlides_ok_of_saves deck hsave 1, deckRender_scrub deck 1⟩

/-- Witness for C4: a deck whose only image OCRs with an exception still
extracts, with that image's text omitted. -/
theorem c4_ocr_failures_nonfatal_witness :
    (∀ sl ∈ ([{ title := none, shapes :=
        [{ textFrame := some ["body"], table := none,
           picture := some { saveOk := true, ocr := none } }] }] : List Slide),
      ∀ sh ∈ sl.shapes, sh.picture.all (fun p => p.saveOk) = true) ∧
    (extract_pptx_content [{ title := none, shapes :=
        [{ textFrame := some ["body"], table := none,
           picture := some { saveOk := true, ocr := none } }] }]).slideData =
      some (deckRender 1 [{ title := none, shapes :=
        [{ textFrame := some ["body"], table := none,
           picture := some { saveOk := true, ocr := none } }] }]) ∧
    deckRender 1 (([{ title := none, shapes :=
        [{ textFrame := some ["body"], table := none,
           picture := some { saveOk := true, ocr := none } }] }] : List Slide).map scrubSlide) =
      deckRender 1 [{ title := none, shapes :=
        [{ textFrame := some ["body"], table := none,
           picture := some { saveOk := true, ocr := none } }] }] := by
  refine ⟨?_, ?_⟩
  · intro sl hsl sh hsh
    fin_cases hsl
    fin_cases hsh
    rfl
  · exact c4_ocr_failures_nonfatal
      [{ title := none, shapes :=
        [{ textFrame := some ["body"], table := none,
           picture := some { saveOk := true, ocr := none } }] }]
      (by intro sl hsl sh hsh; fin_cases hsl; fin_cases hsh; rfl)

/-! ## C5: temporary file cleanup -/

/-- C5 counterexample: for the same failing-save deck, the temporary file
is created (the `NamedTemporaryFile(...)` context has already run) but the
`finally: os.unlink` is never reached, so the file survives — contradicting
deletion on every exit path. -/
theorem c5_counterexample :
    ((extract_pptx_content [{ title := none, shapes :=
      [{ textFrame := none, table := none,
         picture := some { saveOk := false, ocr := none } }] }]).tmps.all
      (fun b => b)) = false := rfl

/-- C5 as amended: each temporary image file created during extraction is
deleted before its shape's processing ends exactly when the raw-image save
succeeded (whether OCR then succeeds or fails); when the save itself fails,
that file is left behind (and extraction aborts). -/
theorem c5_tempfile_deletion (deck : List Slide) :
    (extract_pptx_content deck).tmps = (deckPics deck).map Picture.saveOk :=
  extractSlides_tmps deck 1

/-! ## C8: table rendering -/

/-- C8 counterexample: the code strips each cell text (line 96), so a cell
with leading whitespace is not joined verbatim as the claim (and §8 of the
spec) states. -/
theorem c8_counterexample :
    tableFragment [[" A", "B"]] ≠ "TABLE: " ++ String.intercalate "\n"
      ([[" A", "B"]].map (fun row => String.intercalate " | " row)) := by
  decide

/-- C8 as amended: for every table shape the fragment is `TABLE: ` followed
by the rows joined with newlines in row order, each row being its cell
texts *stripped of surrounding whitespace* joined with `" | "` in cell
order; on the whitespace-free example the rendering is exactly the claimed
one. -/
theorem c8_table_rendering :
    (∀ rows, shapeOut { textFrame := none, table := some rows, picture := none } =
      { frags := ["TABLE: " ++ String.intercalate "\n"
          (rows.map (fun row => String.intercalate " | " (row.map pyStrip)))],
        tmps := [], ok := true }) ∧
    tableFragment [["A", "B"], ["1", "2"]] = "TABLE: A | B\n1 | 2" := by
  constructor
  · intro rows; rfl
  · decide

/-! ## C2, C6, C9, C10: the retry loop -/

/-- C2 (confirmed): at most 3 call attempts ever run, and when attempts 1
and 2 fail rate-limited while attempt 3 succeeds, exactly two sleeps occur,
of `10 + jitter` and `20 + jitter` time units, and the result is the
successful attempt's parsed reply. -/
theorem c2_retry_backoff :
    (∀ oracle jitter, (analyze_slides oracle jitter).attempts ≤ 3) ∧
    (∀ oracle jitter reply,
      oracle 0 = CallOutcome.rateLimited → oracle 1 = CallOutcome.rateLimited →
      oracle 2 = CallOutcome.ok reply →
      analyze_slides oracle jitter =
        { result := parseResponse reply,
          sleeps := [10 + jitter 0, 20 + jitter 1], attempts := 3 }) := by
  constructor
  · intro oracle jitter
    show (attemptLoop oracle jitter [0, 1, 2] [] 0).attempts ≤ 3
    cases h0 : oracle 0 <;> simp [attemptLoop, h0] <;>
      cases h1 : oracle 1 <;> simp [attemptLoop, h1] <;>
        cases h2 : oracle 2 <;> simp [attemptLoop, h2]
  · intro oracle jitter reply h0 h1 h2
    show attemptLoop oracle jitter [0, 1, 2] [] 0 = _
    simp [attemptLoop, h0, h1, h2]
    norm_num

/-- Witness for C2: two simulated rate limits then a success (on a reply
with one finding), with zero jitter. -/
theorem c2_retry_backoff_witness :
    ((fun k => if k = 0 ∨ k = 1 then CallOutcome.rateLimited
        else CallOutcome.ok "\x7b\"inconsistencies\": [7]\x7d") 0 = CallOutcome.rateLimited) ∧
    analyze_slides
      (fun k => if k = 0 ∨ k = 1 then CallOutcome.rateLimited
        else CallOutcome.ok "\x7b\"inconsistencies\": [7]\x7d") (fun _ => 0) =
      { result := Json.arr [Json.num ['7']], sleeps := [10, 20], attempts := 3 } := by
  refine ⟨rfl, ?_⟩
  have h := c2_retry_backoff.2
    (fun k => if k = 0 ∨ k = 1 then CallOutcome.rateLimited
      else CallOutcome.ok "\x7b\"inconsistencies\": [7]\x7d") (fun _ => 0)
    "\x7b\"inconsistencies\": [7]\x7d" rfl rfl rfl
  rw [h]
  norm_num
  rfl

/-- C6 (confirmed): `analyze_slides` always returns (the two `except`
handlers and the post-loop `return []` absorb every model-call failure; in
this embedding it is a total function, so only extraction can abort a run).
A non-rate-limit `generate_content` failure on any attempt ends analysis at
that attempt with `[]`; exhausting all three attempts rate-limited also
returns `[]`. -/
theorem c6_failures_absorbed :
    (∀ oracle jitter k, k < 3 → (∀ j, j < k → oracle j = CallOutcome.rateLimited) →
      oracle k = CallOutcome.failed →
      (analyze_slides oracle jitter).result = Json.arr [] ∧
      (analyze_slides oracle jitter).attempts = k + 1) ∧
    (∀ oracle jitter, (∀ k, k < 3 → oracle k = CallOutcome.rateLimited) →
      (analyze_slides oracle jitter).result = Json.arr [] ∧
      (analyze_slides oracle jitter).attempts = 3) := by
  constructor
  · intro oracle jitter k hk hpre h
    interval_cases k
    · simp [analyze_slides, attemptLoop, h]
    · have h0 := hpre 0 (by omega)
      simp [analyze_slides, attemptLoop, h0, h]
    · have h0 := hpre 0 (by omega)
      have h1 := hpre 1 (by omega)
      simp [analyze_slides, attemptLoop, h0, h1, h]
  · intro oracle jitter h
    have h0 := h 0 (by omega)
    have h1 := h 1 (by omega)
    have h2 := h 2 (by omega)
    simp [analyze_slides, attemptLoop, h0, h1, h2]

/-- Witness for C6: a generic failure on the very first attempt, and a
fully rate-limited run. -/
theorem c6_failures_absorbed_witness :
    ((0 : Nat) < 3 ∧ (∀ j, j < 0 → (fun _ => CallOutcome.failed) j = CallOutcome.rateLimited) ∧
      (fun _ => CallOutcome.failed) 0 = CallOutcome.failed ∧
      (analyze_slides (fun _ => CallOutcome.failed) (fun _ => 0)).result = Json.arr [] ∧
      (analyze_slides (fun _ => CallOutcome.failed) (fun _ => 0)).attempts = 0 + 1) ∧
    ((∀ k, k < 3 → (fun _ => CallOutcome.rateLimited) k = CallOutcome.rateLimited) ∧
      (analyze_slides (fun _ => CallOutcome.rateLimited) (fun _ => 0)).result = Json.arr [] ∧
      (analyze_slides (fun _ => CallOutcome.rateLimited) (fun _ => 0)).attempts = 3) := by
  refine ⟨⟨by omega, fun j hj => absurd hj (by omega), rfl, ?_⟩,
    fun k hk => rfl, ?_⟩
  · exact c6_failures_absorbed.1 (fun _ => CallOutcome.failed) (fun _ => 0) 0 (by omega)
      (fun j hj => absurd hj (by omega)) rfl
  · exact c6_failures_absorbed.2 (fun _ => CallOutcome.rateLimited) (fun _ => 0)
      (fun k hk => rfl)

/-- C9 (confirmed): when all three attempts are rate-limited the loop
sleeps after each of them — including after the third, useless, final
attempt — so exactly three sleeps of `10 + jitter`, `20 + jitter` and
`40 + jitter` units occur before `[]` is returned. -/
theorem c9_sleep_after_last_attempt (oracle : Nat → CallOutcome) (jitter : Nat → ℚ)
    (h : ∀ k, k < 3 → oracle k = CallOutcome.rateLimited) :
    analyze_slides oracle jitter =
      { result := Json.arr [],
        sleeps := [10 + jitter 0, 20 + jitter 1, 40 + jitter 2], attempts := 3 } := by
  have h0 := h 0 (by omega)
  have h1 := h 1 (by omega)
  have h2 := h 2 (by omega)
  show attemptLoop oracle jitter [0, 1, 2] [] 0 = _
  simp [attemptLoop, h0, h1, h2]
  norm_num

/-- Witness for C9: a fully rate-limited run with zero jitter. -/
theorem c9_sleep_after_last_attempt_witness :
    (∀ k, k < 3 → (fun _ => CallOutcome.rateLimited) k = CallOutcome.rateLimited) ∧
    analyze_slides (fun _ => CallOutcome.rateLimited) (fun _ => 0) =
      { result := Json.arr [], sleeps := [10, 20, 40], attempts := 3 } := by
  refine ⟨fun k hk => rfl, ?_⟩
  have h := c9_sleep_after_last_attempt (fun _ => CallOutcome.rateLimited) (fun _ => 0)
    (fun k hk => rfl)
  rw [h]
  norm_num

/-- C10 (confirmed): when `generate_content` succeeds on attempt `k` but
writing `gemini_response.txt` raises, the generic `except Exception`
handler returns `[]` at that attempt: the received reply is never parsed,
so the run degrades to an empty-findings report regardless of the reply's
content. -/
theorem c10_debug_write_failure (oracle : Nat → CallOutcome) (jitter : Nat → ℚ)
    (k : Nat) (reply : String) (hk : k < 3)
    (hpre : ∀ j, j < k → oracle j = CallOutcome.rateLimited)
    (h : oracle k = CallOutcome.writeFail reply) :
    (analyze_slides oracle jitter).result = Json.arr [] ∧
    (analyze_slides oracle jitter).attempts = k + 1 := by
  interval_cases k
  · simp [analyze_slides, attemptLoop, h]
  · have h0 := hpre 0 (by omega)
    simp [analyze_slides, attemptLoop, h0, h]
  · have h0 := hpre 0 (by omega)
    have h1 := hpre 1 (by omega)
    simp [analyze_slides, attemptLoop, h0, h1, h]

/-- Witness for C10: the debug write fails on attempt 1 for a reply that
would have parsed to one finding; the run still returns `[]`. -/
theorem c10_debug_write_failure_witness :
    ((0 : Nat) < 3 ∧
      (fun _ => CallOutcome.writeFail "\x7b\"inconsistencies\": [7]\x7d") 0 =
        CallOutcome.writeFail "\x7b\"inconsistencies\": [7]\x7d") ∧
    parseResponse "\x7b\"inconsistencies\": [7]\x7d" = Json.arr [Json.num ['7']] ∧
    (analyze_slides (fun _ => CallOutcome.writeFail "\x7b\"inconsistencies\": [7]\x7d")
      (fun _ => 0)).result = Json.arr [] ∧
    (analyze_slides (fun _ => CallOutcome.writeFail "\x7b\"inconsistencies\": [7]\x7d")
      (fun _ => 0)).attempts = 0 + 1 := by
  refine ⟨⟨by omega, rfl⟩, rfl, ?_, ?_⟩
  · exact (c10_debug_write_failure
      (fun _ => CallOutcome.writeFail "\x7b\"inconsistencies\": [7]\x7d") (fun _ => 0) 0
      "\x7b\"inconsistencies\": [7]\x7d" (by omega) (fun j hj => absurd hj (by omega)) rfl).1
  · exact (c10_debug_write_failure
      (fun _ => CallOutcome.writeFail "\x7b\"inconsistencies\": [7]\x7d") (fun _ => 0) 0
      "\x7b\"inconsistencies\": [7]\x7d" (by omega) (fun j hj => absurd hj (by omega)) rfl).2

/-! ## C1: the response parser -/

/-- C1 (confirmed): the response parser behaves as the reference
definition modelled from the spec's words — substring from the first `{`
to the last `}` decoded as JSON, empty list when a delimiter is missing or
the substring does not decode, else the `inconsistencies` field defaulting
to the empty list — and on the quoted example reply it returns exactly the
one claimed record. -/
theorem c1_response_extraction :
    (∀ reply, parseResponse reply = refParseResponse reply) ∧
    parseResponse ("Here is the result: \x7b\"inconsistencies\": [\x7b\"type\": \"NUMERICAL\",\"slides\":[2,5],\"description\":\"d\",\"evidence\":[\"e1\",\"e2\"],\"severity\":\"High\"\x7d]\x7d Thanks") =
      Json.arr [Json.obj [
        (sChars "type", Json.str (sChars "NUMERICAL")),
        (sChars "slides", Json.arr [Json.num ['2'], Json.num ['5']]),
        (sChars "description", Json.str (sChars "d")),
        (sChars "evidence", Json.arr [Json.str (sChars "e1"), Json.str (sChars "e2")]),
        (sChars "severity", Json.str (sChars "High"))]] ∧
    parseResponse "no braces in this reply at all" = Json.arr [] := by
  refine ⟨?_, rfl, rfl⟩
  intro reply
  simp only [parseResponse, refParseResponse]
  cases h1 : pyFind (sChars reply) '{' with
  | none => rfl
  | some i =>
    cases h2 : pyRFind (sChars reply) '}' with
    | none => rfl
    | some j =>
      dsimp only
      cases h3 : loads (sliceList (sChars reply) i (j + 1)) with
      | none => rfl
      | some v =>
        dsimp only
        cases v with
        | obj fields =>
          dsimp only
          cases lookupKey fields (sChars "inconsistencies") <;> rfl
        | null => rfl
        | bool b => rfl
        | num raw => rfl
        | str s => rfl
        | arr l => rfl

/-! ## Round trip: whitespace and character helpers -/

theorem char_valid_nat (c : Char) :
    c.toNat < 0xD800 ∨ (0xDFFF < c.toNat ∧ c.toNat < 0x110000) := by
  rcases c.valid with h | ⟨h1, h2⟩
  · left; exact h
  · right; exact ⟨h1, h2⟩

theorem skipWs_cons_nonws {c : Char} (s : List Char) (h : isJsonWs c = false) :
    skipWs (c :: s) = c :: s := by
  simp [skipWs, h]

theorem skipWs_ws_append (ws s : List Char)
    (h : ∀ c ∈ ws, isJsonWs c = true) : skipWs (ws ++ s) = skipWs s := by
  induction ws with
  | nil => rfl
  | cons c cs ih =>
    have hc := h c (List.mem_cons_self _ _)
    simp [skipWs, hc, ih (fun d hd => h d (List.mem_cons_of_mem _ hd))]

theorem indent_all_ws (lvl : Nat) :
    ∀ c ∈ '\n' :: indentChars lvl, isJsonWs c = true := by
  intro c hc
  rcases List.mem_cons.mp hc with h | h
  · subst h; decide
  · have := List.eq_of_mem_replicate h
    subst this; decide

theorem parseValue_ws (f : Nat) (ws s : List Char) (h : ∀ c ∈ ws, isJsonWs c = true) :
    parseValue (f + 1) (ws ++ s) = parseValue (f + 1) s := by
  unfold parseValue
  rw [skipWs_ws_append ws s h]

/-! ## Round trip: string bodies -/

theorem hexDigitVal_hexDigitChar : ∀ d, d < 16 → hexDigitVal (hexDigitChar d) = some d := by
  decide

theorem hex4_hexEsc (n : Nat) (h : n ≤ 0xFFFF) :
    hex4 (hexDigitChar (n / 4096 % 16)) (hexDigitChar (n / 256 % 16))
      (hexDigitChar (n / 16 % 16)) (hexDigitChar (n % 16)) = some n := by
  have h1 := hexDigitVal_hexDigitChar (n / 4096 % 16) (by omega)
  have h2 := hexDigitVal_hexDigitChar (n / 256 % 16) (by omega)
  have h3 := hexDigitVal_hexDigitChar (n / 16 % 16) (by omega)
  have h4 := hexDigitVal_hexDigitChar (n % 16) (by omega)
  simp [hex4, h1, h2, h3, h4]
  omega

theorem psbGo_quote (f : Nat) (r : List Char) : psbGo (f + 1) ('"' :: r) = some ([], r) := by
  rfl

theorem psbGo_esc_quote (f : Nat) (r : List Char) :
    psbGo (f + 1) ('\\' :: '"' :: r) = consFst '"' (psbGo f r) := by rfl

theorem psbGo_esc_bsl (f : Nat) (r : List Char) :
    psbGo (f + 1) ('\\' :: '\\' :: r) = consFst '\\' (psbGo f r) := by rfl

theorem psbGo_esc_b (f : Nat) (r : List Char) :
    psbGo (f + 1) ('\\' :: 'b' :: r) = consFst (Char.ofNat 8) (psbGo f r) := by rfl

theorem psbGo_esc_t (f : Nat) (r : List Char) :
    psbGo (f + 1) ('\\' :: 't' :: r) = consFst '\t' (psbGo f r) := by rfl

theorem psbGo_esc_n (f : Nat) (r : List Char) :
    psbGo (f + 1) ('\\' :: 'n' :: r) = consFst '\n' (psbGo f r) := by rfl

theorem psbGo_esc_f (f : Nat) (r : List Char) :
    psbGo (f + 1) ('\\' :: 'f' :: r) = consFst (Char.ofNat 12) (psbGo f r) := by rfl

theorem psbGo_esc_r (f : Nat) (r : List Char) :
    psbGo (f + 1) ('\\' :: 'r' :: r) = consFst (Char.ofNat 13) (psbGo f r) := by rfl

theorem psbGo_uesc (f : Nat) (r : List Char) : psbGo (f + 1) ('\\' :: 'u' :: r) =
    (match parseUEscape r with
     | some (ch, r2) => consFst ch (psbGo f r2)
     | none => none) := by rfl

theorem psbGo_plain (f : Nat) (c : Char) (r : List Char) (h1 : ¬c = '"') (h2 : ¬c = '\\') :
    psbGo (f + 1) (c :: r) = if c.toNat < 32 then none else consFst c (psbGo f r) := by
  show (if c = '"' then some ([], r) else _) = _
  rw [if_neg h1, if_neg h2]

theorem parseUEscape_single (n : Nat) (hn : n ≤ 0xFFFF)
    (hs1 : ¬(0xD800 ≤ n ∧ n ≤ 0xDBFF)) (hs2 : ¬(0xDC00 ≤ n ∧ n ≤ 0xDFFF))
    (r : List Char) :
    parseUEscape (hexDigitChar (n / 4096 % 16) :: hexDigitChar (n / 256 % 16) ::
      hexDigitChar (n / 16 % 16) :: hexDigitChar (n % 16) :: r) =
      some (Char.ofNat n, r) := by
  have hx := hex4_hexEsc n hn
  show (match hex4 (hexDigitChar (n / 4096 % 16)) (hexDigitChar (n / 256 % 16))
      (hexDigitChar (n / 16 % 16)) (hexDigitChar (n % 16)) with
    | none => none
    | some u =>
      if 0xD800 ≤ u ∧ u ≤ 0xDBFF then
        match r with
        | s1 :: s2 :: a2 :: b2 :: c3 :: d2 :: r3 =>
          if s1 = '\\' ∧ s2 = 'u' then
            match hex4 a2 b2 c3 d2 with
            | some u2 =>
              if 0xDC00 ≤ u2 ∧ u2 ≤ 0xDFFF then
                some (Char.ofNat (0x10000 + (u - 0xD800) * 0x400 + (u2 - 0xDC00)), r3)
              else none
            | none => none
          else none
        | _ => none
      else if 0xDC00 ≤ u ∧ u ≤ 0xDFFF then none
      else some (Char.ofNat u, r)) = _
  rw [hx]
  dsimp only
  rw [if_neg hs1, if_neg hs2]

theorem parseUEscape_pair (hi lo : Nat)
    (hhi : 0xD800 ≤ hi ∧ hi ≤ 0xDBFF) (hlo : 0xDC00 ≤ lo ∧ lo ≤ 0xDFFF)
    (r : List Char) :
    parseUEscape (hexDigitChar (hi / 4096 % 16) :: hexDigitChar (hi / 256 % 16) ::
      hexDigitChar (hi / 16 % 16) :: hexDigitChar (hi % 16) :: '\\' :: 'u' ::
      hexDigitChar (lo / 4096 % 16) :: hexDigitChar (lo / 256 % 16) ::
      hexDigitChar (lo / 16 % 16) :: hexDigitChar (lo % 16) :: r) =
      some (Char.ofNat (0x10000 + (hi - 0xD800) * 0x400 + (lo - 0xDC00)), r) := by
  have hxhi := hex4_hexEsc hi (by omega)
  have hxlo := hex4_hexEsc lo (by omega)
  show (match hex4 (hexDigitChar (hi / 4096 % 16)) (hexDigitChar (hi / 256 % 16))
      (hexDigitChar (hi / 16 % 16)) (hexDigitChar (hi % 16)) with
    | none => none
    | some u =>
      if 0xD800 ≤ u ∧ u ≤ 0xDBFF then
        match '\\' :: 'u' :: hexDigitChar (lo / 4096 % 16) :: hexDigitChar (lo / 256 % 16) ::
            hexDigitChar (lo / 16 % 16) :: hexDigitChar (lo % 16) :: r with
        | s1 :: s2 :: a2 :: b2 :: c3 :: d2 :: r3 =>
          if s1 = '\\' ∧ s2 = 'u' then
            match hex4 a2 b2 c3 d2 with
            | some u2 =>
              if 0xDC00 ≤ u2 ∧ u2 ≤ 0xDFFF then
                some (Char.ofNat (0x10000 + (u - 0xD800) * 0x400 + (u2 - 0xDC00)), r3)
              else none
            | none => none
          else none
        | _ => none
      else if 0xDC00 ≤ u ∧ u ≤ 0xDFFF then none
      else some (Char.ofNat u, '\\' :: 'u' :: hexDigitChar (lo / 4096 % 16) ::
        hexDigitChar (lo / 256 % 16) :: hexDigitChar (lo / 16 % 16) ::
        hexDigitChar (lo % 16) :: r)) = _
  rw [hxhi]
  dsimp only
  rw [if_pos hhi]
  rw [if_pos (⟨rfl, rfl⟩ : ('\\' : Char) = '\\' ∧ ('u' : Char) = 'u')]
  rw [hxlo]
  dsimp only
  rw [if_pos hlo]

theorem psbGo_escString (k : List Char) :
    ∀ f rest, (escString k).length < f →
      psbGo f (escString k ++ '"' :: rest) = some (k, rest) := by
  induction k with
  | nil =>
    intro f rest hf
    obtain ⟨f2, rfl⟩ : ∃ f2, f = f2 + 1 := ⟨f - 1, by omega⟩
    exact psbGo_quote f2 rest
  | cons c cs ih =>
    intro f rest hf
    have hf2 : (escChar c).length + (escString cs).length < f := by
      simpa [escString, List.length_append] using hf
    obtain ⟨f2, rfl⟩ : ∃ f2, f = f2 + 1 := ⟨f - 1, by omega⟩
    show psbGo (f2 + 1) ((escChar c ++ escString cs) ++ '"' :: rest) = _
    rw [List.append_assoc]
    by_cases h1 : c = '"'
    · subst h1
      have hl : (escChar '"').length = 2 := rfl
      rw [show escChar '"' = ['\\', '"'] from rfl]
      simp only [List.cons_append, List.nil_append]
      rw [psbGo_esc_quote, ih f2 rest (by omega)]
      rfl
    · by_cases h2 : c = '\\'
      · subst h2
        have hl : (escChar '\\').length = 2 := rfl
        rw [show escChar '\\' = ['\\', '\\'] from rfl]
        simp only [List.cons_append, List.nil_append]
        rw [psbGo_esc_bsl, ih f2 rest (by omega)]
        rfl
      · by_cases hb8 : c.toNat = 8
        · have he : escChar c = ['\\', 'b'] := by simp [escChar, h1, h2, hb8]
          have hl : (escChar c).length = 2 := by rw [he]; rfl
          have hc : Char.ofNat 8 = c := by rw [← hb8]; exact Char.ofNat_toNat c
          rw [he]
          simp only [List.cons_append, List.nil_append]
          rw [psbGo_esc_b, ih f2 rest (by omega), hc]
          rfl
        · by_cases hb9 : c.toNat = 9
          · have he : escChar c = ['\\', 't'] := by simp [escChar, h1, h2, hb8, hb9]
            have hl : (escChar c).length = 2 := by rw [he]; rfl
            have hc : ('\t' : Char) = c := by
              have h3 := Char.ofNat_toNat c
              rw [hb9] at h3
              exact (show ('\t' : Char) = Char.ofNat 9 by decide).trans h3
            rw [he]
            simp only [List.cons_append, List.nil_append]
            rw [psbGo_esc_t, ih f2 rest (by omega), hc]
            rfl
          · by_cases hb10 : c.toNat = 10
            · have he : escChar c = ['\\', 'n'] := by
                simp [escChar, h1, h2, hb8, hb9, hb10]
              have hl : (escChar c).length = 2 := by rw [he]; rfl
              have hc : ('\n' : Char) = c := by
                have h3 := Char.ofNat_toNat c
                rw [hb10] at h3
                exact (show ('\n' : Char) = Char.ofNat 10 by decide).trans h3
              rw [he]
              simp only [List.cons_append, List.nil_append]
              rw [psbGo_esc_n, ih f2 rest (by omega), hc]
              rfl
            · by_cases hb12 : c.toNat = 12
              · have he : escChar c = ['\\', 'f'] := by
                  simp [escChar, h1, h2, hb8, hb9, hb10, hb12]
                have hl : (escChar c).length = 2 := by rw [he]; rfl
                have hc : Char.ofNat 12 = c := by rw [← hb12]; exact Char.ofNat_toNat c
                rw [he]
                simp only [List.cons_append, List.nil_append]
                rw [psbGo_esc_f, ih f2 rest (by omega), hc]
                rfl
              · by_cases hb13 : c.toNat = 13
                · have he : escChar c = ['\\', 'r'] := by
                    simp [escChar, h1, h2, hb8, hb9, hb10, hb12, hb13]
                  have hl : (escChar c).length = 2 := by rw [he]; rfl
                  have hc : Char.ofNat 13 = c := by rw [← hb13]; exact Char.ofNat_toNat c
                  rw [he]
                  simp only [List.cons_append, List.nil_append]
                  rw [psbGo_esc_r, ih f2 rest (by omega), hc]
                  rfl
                · by_cases hctrl : c.toNat < 32
                  · have he : escChar c = hexEsc c.toNat := by
                      simp [escChar, h1, h2, hb8, hb9, hb10, hb12, hb13, hctrl]
                    have hl : (escChar c).length = 6 := by rw [he]; rfl
                    have hs1 : ¬(0xD800 ≤ c.toNat ∧ c.toNat ≤ 0xDBFF) := by omega
                    have hs2 : ¬(0xDC00 ≤ c.toNat ∧ c.toNat ≤ 0xDFFF) := by omega
                    rw [he]
                    simp only [hexEsc, List.cons_append, List.nil_append]
                    rw [psbGo_uesc,
                      parseUEscape_single c.toNat (by omega) hs1 hs2]
                    dsimp only
                    rw [ih f2 rest (by omega), Char.ofNat_toNat]
                    rfl
                  · by_cases hasc : c.toNat < 127
                    · have he : escChar c = [c] := by
                        simp [escChar, h1, h2, hb8, hb9, hb10, hb12, hb13, hctrl, hasc]
                      have hl : (escChar c).length = 1 := by rw [he]; rfl
                      rw [he]
                      simp only [List.cons_append, List.nil_append]
                      rw [psbGo_plain f2 c _ h1 h2, if_neg hctrl, ih f2 rest (by omega)]
                      rfl
                    · by_cases hbmp : c.toNat ≤ 0xFFFF
                      · have he : escChar c = hexEsc c.toNat := by
                          simp [escChar, h1, h2, hb8, hb9, hb10, hb12, hb13, hctrl, hasc,
                            hbmp]
                        have hl : (escChar c).length = 6 := by rw [he]; rfl
                        have hval := char_valid_nat c
                        have hs1 : ¬(0xD800 ≤ c.toNat ∧ c.toNat ≤ 0xDBFF) := by omega
                        have hs2 : ¬(0xDC00 ≤ c.toNat ∧ c.toNat ≤ 0xDFFF) := by omega
                        rw [he]
                        simp only [hexEsc, List.cons_append, List.nil_append]
                        rw [psbGo_uesc, parseUEscape_single c.toNat hbmp hs1 hs2]
                        dsimp only
                        rw [ih f2 rest (by omega), Char.ofNat_toNat]
                        rfl
                      · have hval := char_valid_nat c
                        have he : escChar c =
                            hexEsc (0xD800 + (c.toNat - 0x10000) / 0x400) ++
                              hexEsc (0xDC00 + (c.toNat - 0x10000) % 0x400) := by
                          simp [escChar, h1, h2, hb8, hb9, hb10, hb12, hb13, hctrl, hasc,
                            hbmp]
                        have hl : (escChar c).length = 12 := by rw [he]; rfl
                        rw [he]
                        simp only [hexEsc, List.cons_append, List.nil_append,
                          List.append_assoc]
                        rw [psbGo_uesc,
                          parseUEscape_pair (0xD800 + (c.toNat - 0x10000) / 0x400)
                            (0xDC00 + (c.toNat - 0x10000) % 0x400)
                            (by constructor <;> omega) (by constructor <;> omega)]
                        dsimp only
                        rw [ih f2 rest (by omega)]
                        have hcc : Char.ofNat (0x10000 +
                            (0xD800 + (c.toNat - 0x10000) / 0x400 - 0xD800) * 0x400 +
                            (0xDC00 + (c.toNat - 0x10000) % 0x400 - 0xDC00)) = c := by
                          have harith : 0x10000 +
                              (0xD800 + (c.toNat - 0x10000) / 0x400 - 0xD800) * 0x400 +
                              (0xDC00 + (c.toNat - 0x10000) % 0x400 - 0xDC00) =
                              c.toNat := by omega
                          rw [harith]
                          exact Char.ofNat_toNat c
                        rw [hcc]
                        rfl

theorem parseStringBody_escString (k rest : List Char) :
    parseStringBody (escString k ++ '"' :: rest) = some (k, rest) := by
  show psbGo (escString k ++ '"' :: rest).length (escString k ++ '"' :: rest) = _
  apply psbGo_escString
  simp [List.length_append]

/-! ## Round trip: number tokens -/

theorem munchDigits_append (ds : List Char) (h : ∀ d ∈ ds, isDig d = true) :
    ∀ rest, (∀ x, rest.head? = some x → isDig x = false) →
      munchDigits (ds ++ rest) = (ds, rest) := by
  induction ds with
  | nil =>
    intro rest hrest
    cases rest with
    | nil => rfl
    | cons c t =>
      have := hrest c rfl
      simp [munchDigits, this]
  | cons d ds2 ih =>
    intro rest hrest
    have hd := h d (List.mem_cons_self _ _)
    simp [munchDigits, hd,
      ih (fun x hx => h x (List.mem_cons_of_mem _ hx)) rest hrest]

theorem parseIntPart_tok (ip : List Char) (hip : IntPartTok ip) (rest : List Char)
    (hrest : ∀ x, rest.head? = some x → isDig x = false) :
    parseIntPart (ip ++ rest) = some (ip, rest) := by
  rcases hip with h0 | ⟨c, ds, hc, h1, h2, hds⟩
  · subst h0
    simp [parseIntPart]
  · subst hc
    have hne : ¬c = '0' := by
      intro he
      rw [he] at h1
      have h48 : ('0' : Char).toNat = 48 := rfl
      omega
    have hdig : isDig c = true := by simp [isDig]; omega
    simp [parseIntPart, hne, hdig, munchDigits_append ds hds rest hrest]

theorem parseFrac_none (tail : List Char)
    (h : ∀ x, tail.head? = some x → ¬x = '.') : parseFrac tail = ([], tail) := by
  cases tail with
  | nil => rfl
  | cons c t =>
    have := h c rfl
    simp [parseFrac, this]

theorem parseFrac_tok (fp : List Char) (hfp : FracTok fp) (tail : List Char)
    (hdot : fp = [] → ∀ x, tail.head? = some x → ¬x = '.')
    (hdig : ∀ x, tail.head? = some x → isDig x = false) :
    parseFrac (fp ++ tail) = (fp, tail) := by
  rcases hfp with h0 | ⟨ds, hds, hne, hdigs⟩
  · subst h0
    exact parseFrac_none tail (hdot rfl)
  · subst hds
    cases ds with
    | nil => exact absurd rfl hne
    | cons d ds2 =>
      have hd := hdigs d (List.mem_cons_self _ _)
      simp [parseFrac, hd,
        munchDigits_append ds2 (fun x hx => hdigs x (List.mem_cons_of_mem _ hx)) tail hdig]

theorem parseExp_none (tail : List Char)
    (h : ∀ x, tail.head? = some x → ¬x = 'e' ∧ ¬x = 'E') : parseExp tail = ([], tail) := by
  cases tail with
  | nil => rfl
  | cons c t =>
    have := h c rfl
    have hcond : ¬(c = 'e' ∨ c = 'E') := by
      intro hor
      rcases hor with h1 | h1
      · exact this.1 h1
      · exact this.2 h1
    simp [parseExp, hcond]

theorem parseExp_tok (ep : List Char) (hep : ExpTok ep) (rest : List Char)
    (hst : Stopper rest) :
    parseExp (ep ++ rest) = (ep, rest) := by
  have hrest_dig : ∀ x, rest.head? = some x → isDig x = false := by
    intro x hx
    cases rest with
    | nil => cases hx
    | cons c t =>
      cases hx
      exact hst.1
  rcases hep with h0 | ⟨e, sg, ds, hds, he, hsg, hne, hdigs⟩
  · subst h0
    apply parseExp_none
    intro x hx
    cases rest with
    | nil => cases hx
    | cons c t =>
      cases hx
      exact ⟨hst.2.2.1, hst.2.2.2⟩
  · subst hds
    have hecond : (e = 'e' ∨ e = 'E') := he
    rcases hsg with hsg | hsg | hsg <;> subst hsg
    · cases ds with
      | nil => exact absurd rfl hne
      | cons d ds2 =>
        have hd := hdigs d (List.mem_cons_self _ _)
        simp [parseExp, hecond, hd,
          munchDigits_append ds2 (fun x hx => hdigs x (List.mem_cons_of_mem _ hx))
            rest hrest_dig]
    · cases ds with
      | nil => exact absurd rfl hne
      | cons d ds2 =>
        have hd := hdigs d (List.mem_cons_self _ _)
        have hplus : isDig '+' = false := by decide
        simp [parseExp, hecond, hplus, hd,
          munchDigits_append ds2 (fun x hx => hdigs x (List.mem_cons_of_mem _ hx))
            rest hrest_dig]
    · cases ds with
      | nil => exact absurd rfl hne
      | cons d ds2 =>
        have hd := hdigs d (List.mem_cons_self _ _)
        have hminus : isDig '-' = false := by decide
        simp [parseExp, hecond, hminus, hd,
          munchDigits_append ds2 (fun x hx => hdigs x (List.mem_cons_of_mem _ hx))
            rest hrest_dig]

theorem digit_bounds (c : Char) (h : isDig c = true) : 48 ≤ c.toNat ∧ c.toNat ≤ 57 := by
  simpa [isDig] using h

theorem digit_ne (c : Char) (h : isDig c = true) (d : Char)
    (hd : 57 < d.toNat ∨ d.toNat < 48) : ¬c = d := by
  intro he
  have hb := digit_bounds c h
  subst he
  omega

theorem intPart_head (ip : List Char) (hip : IntPartTok ip) :
    ∃ c ds, ip = c :: ds ∧ isDig c = true ∧ ¬c = '-' := by
  rcases hip with h0 | ⟨c, ds, hds, h1, h2, _⟩
  · exact ⟨'0', [], h0, by decide, by decide⟩
  · refine ⟨c, ds, hds, by simp [isDig]; omega, ?_⟩
    intro he
    rw [he] at h1
    have : ('-' : Char).toNat = 45 := rfl
    omega

theorem parseNumberTok_cons (c : Char) (r : List Char) :
    parseNumberTok (c :: r) =
      if c = '-' then
        match parseIntPart r with
        | some (ip2, r2) =>
          let f := parseFrac r2
          let e := parseExp f.2
          some ('-' :: (ip2 ++ (f.1 ++ e.1)), e.2)
        | none => none
      else
        match parseIntPart (c :: r) with
        | some (ip2, r2) =>
          let f := parseFrac r2
          let e := parseExp f.2
          some (ip2 ++ (f.1 ++ e.1), e.2)
        | none => none := rfl

theorem parseNumberTok_tok (raw : List Char) (hn : IsNumTok raw) (rest : List Char)
    (hst : Stopper rest) : parseNumberTok (raw ++ rest) = some (raw, rest) := by
  obtain ⟨sg, ip, fp, ep, hraw, hsg, hip, hfp, hep⟩ := hn
  subst hraw
  have hreste : ∀ x, rest.head? = some x →
      isDig x = false ∧ ¬x = '.' ∧ ¬x = 'e' ∧ ¬x = 'E' := by
    intro x hx
    cases rest with
    | nil => cases hx
    | cons c t =>
      cases hx
      exact ⟨hst.1, hst.2.1, hst.2.2.1, hst.2.2.2⟩
  have hC : ∀ x, (ep ++ rest).head? = some x → isDig x = false := by
    intro x hx
    rcases hep with h0 | ⟨e, sg2, ds, hds, he, _, _, _⟩
    · subst h0
      exact (hreste x hx).1
    · subst hds
      simp only [List.cons_append, List.head?, Option.some_inj] at hx
      subst hx
      rcases he with he | he <;> subst he <;> decide
  have hB : fp = [] → ∀ x, (ep ++ rest).head? = some x → ¬x = '.' := by
    intro _ x hx
    rcases hep with h0 | ⟨e, sg2, ds, hds, he, _, _, _⟩
    · subst h0
      exact (hreste x hx).2.1
    · subst hds
      simp only [List.cons_append, List.head?, Option.some_inj] at hx
      subst hx
      rcases he with he | he <;> subst he <;> decide
  have hA : ∀ x, (fp ++ (ep ++ rest)).head? = some x → isDig x = false := by
    intro x hx
    rcases hfp with h0 | ⟨ds, hds, _, _⟩
    · subst h0
      exact hC x hx
    · subst hds
      simp only [List.cons_append, List.head?, Option.some_inj] at hx
      subst hx
      decide
  have h1 : parseIntPart (ip ++ (fp ++ (ep ++ rest))) = some (ip, fp ++ (ep ++ rest)) :=
    parseIntPart_tok ip hip _ hA
  have h2 : parseFrac (fp ++ (ep ++ rest)) = (fp, ep ++ rest) :=
    parseFrac_tok fp hfp _ hB hC
  have h3 : parseExp (ep ++ rest) = (ep, rest) := parseExp_tok ep hep rest hst
  obtain ⟨c, ds, hipeq, hcdig, hcne⟩ := intPart_head ip hip
  rcases hsg with hsg | hsg <;> subst hsg
  · simp only [List.nil_append, List.append_assoc]
    rw [hipeq]
    simp only [List.cons_append]
    rw [parseNumberTok_cons]
    rw [if_neg hcne, ← List.cons_append, ← hipeq, h1]
    dsimp only
    rw [h2]
    dsimp only
    rw [h3]
    simp [hipeq]
  · simp only [List.cons_append, List.nil_append, List.append_assoc]
    rw [parseNumberTok_cons]
    rw [if_pos rfl]
    simp only [List.nil_append]
    rw [h1]
    dsimp only
    rw [h2]
    dsimp only
    rw [h3]

theorem parseConst_num_none (raw rest : List Char) (hn : IsNumTok raw) :
    parseConst (raw ++ rest) = none := by
  obtain ⟨sg, ip, fp, ep, hraw, hsg, hip, hfp, hep⟩ := hn
  obtain ⟨c, ds, hipeq, hcdig, hcne⟩ := intPart_head ip hip
  subst hraw
  have l1 : sChars "null" = ['n', 'u', 'l', 'l'] := rfl
  have l2 : sChars "true" = ['t', 'r', 'u', 'e'] := rfl
  have l3 : sChars "false" = ['f', 'a', 'l', 's', 'e'] := rfl
  rcases hsg with hsg | hsg <;> subst hsg
  · rw [hipeq]
    simp only [List.nil_append, List.cons_append, List.append_assoc]
    have hn1 := digit_ne c hcdig 'n' (by decide)
    have hn2 := digit_ne c hcdig 't' (by decide)
    have hn3 := digit_ne c hcdig 'f' (by decide)
    have hn4 := digit_ne c hcdig 'N' (by decide)
    have hn5 := digit_ne c hcdig 'I' (by decide)
    have hn6 := digit_ne c hcdig '-' (by decide)
    simp [parseConst, l1, l2, l3, nanChars, infChars, negInfChars, stripLit,
      hn1, hn2, hn3, hn4, hn5, hn6]
  · rw [hipeq]
    simp only [List.cons_append, List.append_assoc]
    have hn5 := digit_ne c hcdig 'I' (by decide)
    simp [parseConst, l1, l2, l3, nanChars, infChars, negInfChars, stripLit, hn5]

/-! ## Round trip: value-level step lemmas -/

theorem stopper_cons (c : Char) (h1 : isDig c = false) (h2 : ¬c = '.')
    (h3 : ¬c = 'e') (h4 : ¬c = 'E') (s : List Char) : Stopper (c :: s) :=
  ⟨h1, h2, h3, h4⟩

theorem parseValue_other (f : Nat) (c : Char) (r : List Char)
    (hws : isJsonWs c = false) (h1 : ¬c = '{') (h2 : ¬c = '[') (h3 : ¬c = '"') :
    parseValue (f + 1) (c :: r) =
      (match parseConst (c :: r) with
       | some res => some res
       | none =>
         match parseNumberTok (c :: r) with
         | some (raw, r2) => some (Json.num raw, r2)
         | none => none) := by
  unfold parseValue
  rw [skipWs_cons_nonws _ hws]
  dsimp only
  rw [if_neg h1, if_neg h2, if_neg h3]

theorem parseValue_str (f : Nat) (r : List Char) :
    parseValue (f + 1) ('"' :: r) =
      (match parseStringBody r with
       | some (s2, r2) => some (Json.str s2, r2)
       | none => none) := by
  unfold parseValue
  rw [skipWs_cons_nonws _ (by decide)]
  dsimp only
  rw [if_neg (by decide), if_neg (by decide), if_pos rfl]

theorem parseValue_arr_step (f : Nat) (r : List Char) :
    parseValue (f + 1) ('[' :: r) =
      (if (skipWs r).head? = some ']' then some (Json.arr [], (skipWs r).tail)
       else
         match parseItems f (skipWs r) with
         | some (vs, r3) => some (Json.arr vs, r3)
         | none => none) := by
  unfold parseValue
  rw [skipWs_cons_nonws _ (by decide)]
  dsimp only
  rw [if_neg (by decide), if_pos rfl]

theorem parseValue_obj_step (f : Nat) (r : List Char) :
    parseValue (f + 1) ('{' :: r) =
      (if (skipWs r).head? = some '}' then some (Json.obj [], (skipWs r).tail)
       else
         match parseMembers f (skipWs r) with
         | some (pairs, r3) => some (Json.obj (List.foldl dictInsert [] pairs), r3)
         | none => none) := by
  unfold parseValue
  rw [skipWs_cons_nonws _ (by decide)]
  dsimp only
  rw [if_pos rfl]

theorem parseItems_succ (f : Nat) (s : List Char) :
    parseItems (f + 1) s =
      (match parseValue f s with
       | none => none
       | some (v, r) =>
         match skipWs r with
         | [] => none
         | c :: r2 =>
           if c = ',' then
             match parseItems f r2 with
             | some (vs, r3) => some (v :: vs, r3)
             | none => none
           else if c = ']' then some ([v], r2)
           else none) := by
  rw [parseItems]

theorem parseMembers_succ (f : Nat) (s : List Char) :
    parseMembers (f + 1) s =
      (match skipWs s with
       | [] => none
       | c :: r =>
         if c = '"' then
           match parseStringBody r with
           | none => none
           | some (key, r2) =>
             match skipWs r2 with
             | [] => none
             | c2 :: r3 =>
               if c2 = ':' then
                 match parseValue f r3 with
                 | none => none
                 | some (v, r4) =>
                   match skipWs r4 with
                   | [] => none
                   | c3 :: r5 =>
                     if c3 = ',' then
                       match parseMembers f r5 with
                       | some (ps, r6) => some ((key, v) :: ps, r6)
                       | none => none
                     else if c3 = '}' then some ([(key, v)], r5)
                     else none
               else none
         else none) := by
  rw [parseMembers]

theorem skipWs_nl_indent (lvl : Nat) (c : Char) (s : List Char) (hc : isJsonWs c = false) :
    skipWs ('\n' :: (indentChars lvl ++ (c :: s))) = c :: s := by
  have h1 : '\n' :: (indentChars lvl ++ (c :: s)) =
      ('\n' :: indentChars lvl) ++ (c :: s) := rfl
  rw [h1, skipWs_ws_append _ _ (indent_all_ws lvl), skipWs_cons_nonws _ hc]

theorem nonDelim_head (c : Char) (t : List Char)
    (h : isJsonWs c = false ∧ ¬c = ']' ∧ ¬c = '}') :
    ∃ c2 t2, c :: t = c2 :: t2 ∧ isJsonWs c2 = false ∧ ¬c2 = ']' ∧ ¬c2 = '}' :=
  ⟨c, t, rfl, h.1, h.2.1, h.2.2⟩

theorem encodeVal_head (v : Json) (hwf : WfJson v) (lvl : Nat) :
    ∃ c t, encodeVal lvl v = c :: t ∧ isJsonWs c = false ∧ ¬c = ']' ∧ ¬c = '}' := by
  cases v with
  | null => exact nonDelim_head 'n' _ (by decide)
  | bool b => cases b with
    | true => exact nonDelim_head 't' _ (by decide)
    | false => exact nonDelim_head 'f' _ (by decide)
  | str s => exact nonDelim_head '"' _ (by decide)
  | arr l => cases l with
    | nil => exact nonDelim_head '[' _ (by decide)
    | cons v vs => exact nonDelim_head '[' _ (by decide)
  | obj fs => cases fs with
    | nil => exact nonDelim_head '{' _ (by decide)
    | cons p ps => exact nonDelim_head '{' _ (by decide)
  | num raw =>
    cases hwf with
    | num _ hn =>
      rcases hn with hn | h | h | h
      · obtain ⟨sg, ip, fp, ep, hraw, hsg, hip, hfp, hep⟩ := hn
        obtain ⟨c, ds, hipeq, hcdig, _⟩ := intPart_head ip hip
        have hb := digit_bounds c hcdig
        rcases hsg with hsg | hsg <;> subst hsg <;> subst hraw <;> rw [hipeq]
        · refine ⟨c, _, rfl, ?_, ?_, ?_⟩
          · simp [isJsonWs]; omega
          · intro he; rw [he] at hb; have : (']' : Char).toNat = 93 := rfl; omega
          · intro he; rw [he] at hb; have : ('}' : Char).toNat = 125 := rfl; omega
        · exact nonDelim_head '-' _ (by decide)
      · subst h; exact nonDelim_head 'N' _ (by decide)
      · subst h; exact nonDelim_head 'I' _ (by decide)
      · subst h; exact nonDelim_head '-' _ (by decide)

theorem parseValue_numLit (f : Nat) (raw rest : List Char) (hn : NumLit raw)
    (hst : Stopper rest) :
    parseValue (f + 1) (raw ++ rest) = some (Json.num raw, rest) := by
  rcases hn with hn | h | h | h
  · obtain ⟨c, t, hform, hd, hne1, hne2, hne3⟩ :
        ∃ c t, raw = c :: t ∧ isJsonWs c = false ∧ ¬c = '{' ∧ ¬c = '[' ∧ ¬c = '"' := by
      obtain ⟨sg, ip, fp, ep, hraw, hsg, hip, hfp, hep⟩ := hn
      obtain ⟨c, ds, hipeq, hcdig, _⟩ := intPart_head ip hip
      have hb := digit_bounds c hcdig
      rcases hsg with hsg | hsg <;> subst hsg <;> subst hraw <;> rw [hipeq]
      · refine ⟨c, ds ++ (fp ++ ep), by simp, ?_, ?_, ?_, ?_⟩
        · simp [isJsonWs]; omega
        · intro he; rw [he] at hb; have : ('{' : Char).toNat = 123 := rfl; omega
        · intro he; rw [he] at hb; have : ('[' : Char).toNat = 91 := rfl; omega
        · intro he; rw [he] at hb; have : ('"' : Char).toNat = 34 := rfl; omega
      · exact ⟨'-', ip ++ (fp ++ ep), by rw [hipeq]; rfl, by decide, by decide,
          by decide, by decide⟩
    rw [hform, List.cons_append, parseValue_other f c _ hd hne1 hne2 hne3,
      ← List.cons_append, ← hform]
    rw [parseConst_num_none raw rest hn]
    dsimp only
    rw [parseNumberTok_tok raw hn rest hst]
  · subst h
    rw [show nanChars ++ rest = 'N' :: ('a' :: 'N' :: rest) from rfl]
    rw [parseValue_other f 'N' _ (by decide) (by decide) (by decide) (by decide)]
    rw [show parseConst ('N' :: ('a' :: 'N' :: rest)) =
      some (Json.num nanChars, rest) from rfl]
  · subst h
    rw [show infChars ++ rest =
      'I' :: ('n' :: 'f' :: 'i' :: 'n' :: 'i' :: 't' :: 'y' :: rest) from rfl]
    rw [parseValue_other f 'I' _ (by decide) (by decide) (by decide) (by decide)]
    rw [show parseConst ('I' :: ('n' :: 'f' :: 'i' :: 'n' :: 'i' :: 't' :: 'y' :: rest)) =
      some (Json.num infChars, rest) from rfl]
  · subst h
    rw [show negInfChars ++ rest =
      '-' :: ('I' :: 'n' :: 'f' :: 'i' :: 'n' :: 'i' :: 't' :: 'y' :: rest) from rfl]
    rw [parseValue_other f '-' _ (by decide) (by decide) (by decide) (by decide)]
    rw [show parseConst ('-' :: ('I' :: 'n' :: 'f' :: 'i' :: 'n' :: 'i' :: 't' :: 'y' ::
      rest)) = some (Json.num negInfChars, rest) from rfl]

theorem parseValue_null (f : Nat) (rest : List Char) :
    parseValue (f + 1) ('n' :: ('u' :: 'l' :: 'l' :: rest)) = some (Json.null, rest) := by
  rw [parseValue_other f 'n' _ (by decide) (by decide) (by decide) (by decide)]
  rw [show parseConst ('n' :: ('u' :: 'l' :: 'l' :: rest)) =
    some (Json.null, rest) from rfl]

theorem parseValue_true (f : Nat) (rest : List Char) :
    parseValue (f + 1) ('t' :: ('r' :: 'u' :: 'e' :: rest)) =
      some (Json.bool true, rest) := by
  rw [parseValue_other f 't' _ (by decide) (by decide) (by decide) (by decide)]
  rw [show parseConst ('t' :: ('r' :: 'u' :: 'e' :: rest)) =
    some (Json.bool true, rest) from rfl]

theorem parseValue_false (f : Nat) (rest : List Char) :
    parseValue (f + 1) ('f' :: ('a' :: 'l' :: 's' :: 'e' :: rest)) =
      some (Json.bool false, rest) := by
  rw [parseValue_other f 'f' _ (by decide) (by decide) (by decide) (by decide)]
  rw [show parseConst ('f' :: ('a' :: 'l' :: 's' :: 'e' :: rest)) =
    some (Json.bool false, rest) from rfl]

theorem foldl_dictInsert_eq (fs : List (List Char × Json)) :
    ∀ acc, ((acc ++ fs).map Prod.fst).Nodup → List.foldl dictInsert acc fs = acc ++ fs := by
  induction fs with
  | nil => intro acc h; simp
  | cons p fs2 ih =>
    intro acc h
    have hnotin : ¬ acc.any (fun q => q.1 = p.1) = true := by
      simp only [List.any_eq_true, decide_eq_true_eq]
      rintro ⟨q, hq, hqe⟩
      have hmap : ((acc ++ p :: fs2).map Prod.fst) =
          acc.map Prod.fst ++ (p :: fs2).map Prod.fst := List.map_append _ _ _
      rw [hmap] at h
      have hdisj := List.disjoint_of_nodup_append h
      have h1 : q.1 ∈ acc.map Prod.fst := List.mem_map_of_mem _ hq
      have h2 : q.1 ∈ (p :: fs2).map Prod.fst := by
        rw [hqe]
        exact List.mem_cons_self _ _
      exact hdisj h1 h2
    rw [List.foldl_cons]
    have hins : dictInsert acc p = acc ++ [p] := by simp [dictInsert, hnotin]
    rw [hins, ih (acc ++ [p]) (by simpa using h)]
    simp

theorem fuelItems_pos (l : List Json) : 1 ≤ fuelItems l := by
  cases l with
  | nil => exact Nat.le_refl 1
  | cons v vs =>
    have h : fuelItems (v :: vs) = 1 + fuelVal v + fuelItems vs := rfl
    omega

theorem fuelMembers_pos (l : List (List Char × Json)) : 1 ≤ fuelMembers l := by
  cases l with
  | nil => exact Nat.le_refl 1
  | cons p ps =>
    have h : fuelMembers (p :: ps) = 1 + fuelVal p.2 + fuelMembers ps := rfl
    omega

theorem fuelVal_pos (v : Json) : 1 ≤ fuelVal v := by
  cases v with
  | null => exact Nat.le_refl 1
  | bool b => cases b <;> exact Nat.le_refl 1
  | num r => exact Nat.le_refl 1
  | str s => exact Nat.le_refl 1
  | arr l =>
    cases l with
    | nil => exact Nat.le_refl 1
    | cons v vs =>
      have h : fuelVal (Json.arr (v :: vs)) = 1 + fuelItems (v :: vs) := rfl
      omega
  | obj fs =>
    cases fs with
    | nil => exact Nat.le_refl 1
    | cons p ps =>
      have h : fuelVal (Json.obj (p :: ps)) = 1 + fuelMembers (p :: ps) := rfl
      omega

/-! ## Round trip: the main induction -/

theorem parseValue_encode (v : Json) (hwf : WfJson v) :
    ∀ f lvl rest, fuelVal v ≤ f → Stopper rest →
      parseValue f (encodeVal lvl v ++ rest) = some (v, rest) := by
  induction hwf with
  | null =>
    intro f lvl rest hf hst
    have h1 : fuelVal Json.null = 1 := rfl
    obtain ⟨f2, rfl⟩ : ∃ f2, f = f2 + 1 := ⟨f - 1, by omega⟩
    rw [show encodeVal lvl Json.null ++ rest = 'n' :: ('u' :: 'l' :: 'l' :: rest) from rfl]
    exact parseValue_null f2 rest
  | bool b =>
    intro f lvl rest hf hst
    have h1 : fuelVal (Json.bool b) = 1 := by cases b <;> rfl
    obtain ⟨f2, rfl⟩ : ∃ f2, f = f2 + 1 := ⟨f - 1, by omega⟩
    cases b
    · rw [show encodeVal lvl (Json.bool false) ++ rest =
        'f' :: ('a' :: 'l' :: 's' :: 'e' :: rest) from rfl]
      exact parseValue_false f2 rest
    · rw [show encodeVal lvl (Json.bool true) ++ rest =
        't' :: ('r' :: 'u' :: 'e' :: rest) from rfl]
      exact parseValue_true f2 rest
  | num raw hn =>
    intro f lvl rest hf hst
    have h1 : fuelVal (Json.num raw) = 1 := rfl
    obtain ⟨f2, rfl⟩ : ∃ f2, f = f2 + 1 := ⟨f - 1, by omega⟩
    rw [show encodeVal lvl (Json.num raw) ++ rest = raw ++ rest from rfl]
    exact parseValue_numLit f2 raw rest hn hst
  | str s =>
    intro f lvl rest hf hst
    have h1 : fuelVal (Json.str s) = 1 := rfl
    obtain ⟨f2, rfl⟩ : ∃ f2, f = f2 + 1 := ⟨f - 1, by omega⟩
    have hform : encodeVal lvl (Json.str s) ++ rest =
        '"' :: (escString s ++ ('"' :: rest)) := by
      rw [show encodeVal lvl (Json.str s) = '"' :: (escString s ++ ['"']) from rfl]
      simp
    rw [hform, parseValue_str f2 _, parseStringBody_escString s rest]
  | arr l hmem ih =>
    intro f lvl rest hf hst
    cases l with
    | nil =>
      have h1 : fuelVal (Json.arr []) = 1 := rfl
      obtain ⟨f2, rfl⟩ : ∃ f2, f = f2 + 1 := ⟨f - 1, by omega⟩
      rw [show encodeVal lvl (Json.arr []) ++ rest = '[' :: (']' :: rest) from rfl]
      rw [parseValue_arr_step f2 _, skipWs_cons_nonws _ (by decide)]
      simp
    | cons v vs =>
      have items_rt : ∀ vs2 v2 ws, v2 ∈ v :: vs → (∀ w ∈ vs2, w ∈ v :: vs) →
          (∀ c2 ∈ ws, isJsonWs c2 = true) →
          ∀ f3 rest2, fuelItems (v2 :: vs2) ≤ f3 → Stopper rest2 →
            parseItems f3 (ws ++ (encodeVal (lvl + 1) v2 ++ (encodeTail (lvl + 1) vs2 ++
              ('\n' :: (indentChars lvl ++ (']' :: rest2)))))) = some (v2 :: vs2, rest2) := by
        intro vs2
        induction vs2 with
        | nil =>
          intro v2 ws hv2 _ hws f3 rest2 hf3 hst2
          have hfv : fuelItems (v2 :: []) = 1 + fuelVal v2 + 1 := rfl
          obtain ⟨f4, rfl⟩ : ∃ f4, f3 = f4 + 1 := ⟨f3 - 1, by omega⟩
          rw [parseItems_succ]
          obtain ⟨f5, rfl⟩ : ∃ f5, f4 = f5 + 1 := ⟨f4 - 1, by omega⟩
          rw [parseValue_ws f5 ws _ hws]
          rw [show encodeTail (lvl + 1) ([] : List Json) = [] from rfl, List.nil_append]
          rw [ih v2 hv2 (f5 + 1) (lvl + 1) _ (by omega)
            (stopper_cons '\n' (by decide) (by decide) (by decide) (by decide) _)]
          dsimp only
          rw [skipWs_nl_indent lvl ']' rest2 (by decide)]
          dsimp only
          rw [if_neg (by decide), if_pos rfl]
        | cons w vs3 ihns =>
          intro v2 ws hv2 hsub hws f3 rest2 hf3 hst2
          have hfv : fuelItems (v2 :: w :: vs3) =
              1 + fuelVal v2 + fuelItems (w :: vs3) := rfl
          have hp2 := fuelItems_pos (w :: vs3)
          obtain ⟨f4, rfl⟩ : ∃ f4, f3 = f4 + 1 := ⟨f3 - 1, by omega⟩
          rw [parseItems_succ]
          obtain ⟨f5, rfl⟩ : ∃ f5, f4 = f5 + 1 := ⟨f4 - 1, by omega⟩
          rw [parseValue_ws f5 ws _ hws]
          rw [show encodeTail (lvl + 1) (w :: vs3) =
            ',' :: '\n' :: (indentChars (lvl + 1) ++ encodeVal (lvl + 1) w ++
              encodeTail (lvl + 1) vs3) from rfl]
          simp only [List.cons_append, List.append_assoc]
          rw [ih v2 hv2 (f5 + 1) (lvl + 1) _ (by omega)
            (stopper_cons ',' (by decide) (by decide) (by decide) (by decide) _)]
          dsimp only
          rw [skipWs_cons_nonws _ (show isJsonWs ',' = false from by decide)]
          dsimp only
          rw [if_pos rfl]
          rw [show '\n' :: (indentChars (lvl + 1) ++ (encodeVal (lvl + 1) w ++
              (encodeTail (lvl + 1) vs3 ++ ('\n' :: (indentChars lvl ++ (']' :: rest2)))))) =
            ('\n' :: indentChars (lvl + 1)) ++ (encodeVal (lvl + 1) w ++
              (encodeTail (lvl + 1) vs3 ++ ('\n' :: (indentChars lvl ++ (']' :: rest2)))))
            from rfl]
          rw [ihns w ('\n' :: indentChars (lvl + 1)) (hsub w (List.mem_cons_self _ _))
            (fun x hx => hsub x (List.mem_cons_of_mem _ hx)) (indent_all_ws (lvl + 1))
            (f5 + 1) rest2 (by omega) hst2]
      have h1 : fuelVal (Json.arr (v :: vs)) = 1 + fuelItems (v :: vs) := rfl
      obtain ⟨f2, rfl⟩ : ∃ f2, f = f2 + 1 := ⟨f - 1, by omega⟩
      have hform : encodeVal lvl (Json.arr (v :: vs)) ++ rest =
          '[' :: (('\n' :: indentChars (lvl + 1)) ++ (encodeVal (lvl + 1) v ++
            (encodeTail (lvl + 1) vs ++ ('\n' :: (indentChars lvl ++ (']' :: rest)))))) := by
        rw [show encodeVal lvl (Json.arr (v :: vs)) =
          '[' :: '\n' :: (indentChars (lvl + 1) ++ encodeVal (lvl + 1) v ++
            encodeTail (lvl + 1) vs ++ '\n' :: (indentChars lvl ++ [']'])) from rfl]
        simp [List.append_assoc]
      rw [hform, parseValue_arr_step f2 _]
      obtain ⟨c, t, hct, hcw, hcne, _⟩ :=
        encodeVal_head v (hmem v (List.mem_cons_self _ _)) (lvl + 1)
      have hskip : skipWs (('\n' :: indentChars (lvl + 1)) ++ (encodeVal (lvl + 1) v ++
          (encodeTail (lvl + 1) vs ++ ('\n' :: (indentChars lvl ++ (']' :: rest)))))) =
          c :: (t ++ (encodeTail (lvl + 1) vs ++ ('\n' :: (indentChars lvl ++
            (']' :: rest))))) := by
        rw [skipWs_ws_append _ _ (indent_all_ws (lvl + 1)), hct, List.cons_append,
          skipWs_cons_nonws _ hcw]
      rw [hskip]
      rw [if_neg (by simp [hcne])]
      rw [show c :: (t ++ (encodeTail (lvl + 1) vs ++ ('\n' :: (indentChars lvl ++
          (']' :: rest))))) = (c :: t) ++ (encodeTail (lvl + 1) vs ++ ('\n' ::
          (indentChars lvl ++ (']' :: rest)))) from rfl, ← hct]
      rw [show encodeVal (lvl + 1) v ++ (encodeTail (lvl + 1) vs ++ ('\n' ::
          (indentChars lvl ++ (']' :: rest)))) = [] ++ (encodeVal (lvl + 1) v ++
          (encodeTail (lvl + 1) vs ++ ('\n' :: (indentChars lvl ++ (']' :: rest)))))
        from rfl]
      rw [items_rt vs v [] (List.mem_cons_self _ _) (fun w hw => List.mem_cons_of_mem _ hw)
        (by intro c2 hc2; cases hc2) f2 rest (by omega) hst]
  | obj fs hnodup hmemw ih =>
    intro f lvl rest hf hst
    cases fs with
    | nil =>
      have h1 : fuelVal (Json.obj []) = 1 := rfl
      obtain ⟨f2, rfl⟩ : ∃ f2, f = f2 + 1 := ⟨f - 1, by omega⟩
      rw [show encodeVal lvl (Json.obj []) ++ rest = '{' :: ('}' :: rest) from rfl]
      rw [parseValue_obj_step f2 _, skipWs_cons_nonws _ (by decide)]
      simp
    | cons p ps =>
      have members_rt : ∀ ps2 p2 ws, p2 ∈ p :: ps → (∀ q ∈ ps2, q ∈ p :: ps) →
          (∀ c2 ∈ ws, isJsonWs c2 = true) →
          ∀ f3 rest2, fuelMembers (p2 :: ps2) ≤ f3 → Stopper rest2 →
            parseMembers f3 (ws ++ (encodeField (lvl + 1) p2 ++
              (encodeFieldsTail (lvl + 1) ps2 ++
              ('\n' :: (indentChars lvl ++ ('}' :: rest2)))))) = some (p2 :: ps2, rest2) := by
        intro ps2
        induction ps2 with
        | nil =>
          intro p2 ws hp2 _ hws f3 rest2 hf3 hst2
          obtain ⟨k, v2⟩ := p2
          have hfv : fuelMembers ((k, v2) :: []) = 1 + fuelVal v2 + 1 := rfl
          obtain ⟨f4, rfl⟩ : ∃ f4, f3 = f4 + 1 := ⟨f3 - 1, by omega⟩
          rw [parseMembers_succ]
          rw [show encodeField (lvl + 1) (k, v2) =
            '"' :: (escString k ++ '"' :: ':' :: ' ' :: encodeVal (lvl + 1) v2) from rfl]
          rw [show encodeFieldsTail (lvl + 1) ([] : List (List Char × Json)) = []
            from rfl, List.nil_append]
          simp only [List.cons_append, List.append_assoc]
          rw [skipWs_ws_append _ _ hws,
            skipWs_cons_nonws _ (show isJsonWs '"' = false from by decide)]
          dsimp only
          rw [if_pos rfl]
          rw [parseStringBody_escString k _]
          dsimp only
          rw [skipWs_cons_nonws _ (show isJsonWs ':' = false from by decide)]
          dsimp only
          rw [if_pos rfl]
          obtain ⟨f5, rfl⟩ : ∃ f5, f4 = f5 + 1 := ⟨f4 - 1, by omega⟩
          rw [show ' ' :: (encodeVal (lvl + 1) v2 ++
              ('\n' :: (indentChars lvl ++ ('}' :: rest2)))) =
            [' '] ++ (encodeVal (lvl + 1) v2 ++
              ('\n' :: (indentChars lvl ++ ('}' :: rest2)))) from rfl]
          rw [parseValue_ws f5 [' '] _ (by
            intro x hx
            cases hx with
            | head => decide
            | tail _ h2 => cases h2)]
          rw [ih (k, v2) hp2 (f5 + 1) (lvl + 1) _ (by show fuelVal v2 ≤ f5 + 1; omega)
            (stopper_cons '\n' (by decide) (by decide) (by decide) (by decide) _)]
          dsimp only
          rw [skipWs_nl_indent lvl '}' rest2 (by decide)]
          dsimp only
          rw [if_neg (by decide), if_pos rfl]
        | cons q ps3 ihns =>
          intro p2 ws hp2 hsub hws f3 rest2 hf3 hst2
          obtain ⟨k, v2⟩ := p2
          have hfv : fuelMembers ((k, v2) :: q :: ps3) =
              1 + fuelVal v2 + fuelMembers (q :: ps3) := rfl
          have hp3 := fuelMembers_pos (q :: ps3)
          obtain ⟨f4, rfl⟩ : ∃ f4, f3 = f4 + 1 := ⟨f3 - 1, by omega⟩
          rw [parseMembers_succ]
          rw [show encodeField (lvl + 1) (k, v2) =
            '"' :: (escString k ++ '"' :: ':' :: ' ' :: encodeVal (lvl + 1) v2) from rfl]
          rw [show encodeFieldsTail (lvl + 1) (q :: ps3) =
            ',' :: '\n' :: (indentChars (lvl + 1) ++ encodeField (lvl + 1) q ++
              encodeFieldsTail (lvl + 1) ps3) from rfl]
          simp only [List.cons_append, List.append_assoc]
          rw [skipWs_ws_append _ _ hws,
            skipWs_cons_nonws _ (show isJsonWs '"' = false from by decide)]
          dsimp only
          rw [if_pos rfl]
          rw [parseStringBody_escString k _]
          dsimp only
          rw [skipWs_cons_nonws _ (show isJsonWs ':' = false from by decide)]
          dsimp only
          rw [if_pos rfl]
          obtain ⟨f5, rfl⟩ : ∃ f5, f4 = f5 + 1 := ⟨f4 - 1, by omega⟩
          rw [show ' ' :: (encodeVal (lvl + 1) v2 ++
              (',' :: '\n' :: (indentChars (lvl + 1) ++ (encodeField (lvl + 1) q ++
                (encodeFieldsTail (lvl + 1) ps3 ++
                ('\n' :: (indentChars lvl ++ ('}' :: rest2)))))))) =
            [' '] ++ (encodeVal (lvl + 1) v2 ++
              (',' :: '\n' :: (indentChars (lvl + 1) ++ (encodeField (lvl + 1) q ++
                (encodeFieldsTail (lvl + 1) ps3 ++
                ('\n' :: (indentChars lvl ++ ('}' :: rest2)))))))) from rfl]
          rw [parseValue_ws f5 [' '] _ (by
            intro x hx
            cases hx with
            | head => decide
            | tail _ h2 => cases h2)]
          rw [ih (k, v2) hp2 (f5 + 1) (lvl + 1) _ (by show fuelVal v2 ≤ f5 + 1; omega)
            (stopper_cons ',' (by decide) (by decide) (by decide) (by decide) _)]
          dsimp only
          rw [skipWs_cons_nonws _ (show isJsonWs ',' = false from by decide)]
          dsimp only
          rw [if_pos rfl]
          rw [show '\n' :: (indentChars (lvl + 1) ++ (encodeField (lvl + 1) q ++
              (encodeFieldsTail (lvl + 1) ps3 ++
              ('\n' :: (indentChars lvl ++ ('}' :: rest2)))))) =
            ('\n' :: indentChars (lvl + 1)) ++ (encodeField (lvl + 1) q ++
              (encodeFieldsTail (lvl + 1) ps3 ++
              ('\n' :: (indentChars lvl ++ ('}' :: rest2))))) from rfl]
          rw [ihns q ('\n' :: indentChars (lvl + 1)) (hsub q (List.mem_cons_self _ _))
            (fun x hx => hsub x (List.mem_cons_of_mem _ hx)) (indent_all_ws (lvl + 1))
            (f5 + 1) rest2 (by omega) hst2]
      have h1 : fuelVal (Json.obj (p :: ps)) = 1 + fuelMembers (p :: ps) := rfl
      obtain ⟨f2, rfl⟩ : ∃ f2, f = f2 + 1 := ⟨f - 1, by omega⟩
      have hform : encodeVal lvl (Json.obj (p :: ps)) ++ rest =
          '{' :: (('\n' :: indentChars (lvl + 1)) ++ (encodeField (lvl + 1) p ++
            (encodeFieldsTail (lvl + 1) ps ++
            ('\n' :: (indentChars lvl ++ ('}' :: rest)))))) := by
        rw [show encodeVal lvl (Json.obj (p :: ps)) =
          '{' :: '\n' :: (indentChars (lvl + 1) ++ encodeField (lvl + 1) p ++
            encodeFieldsTail (lvl + 1) ps ++ '\n' :: (indentChars lvl ++ ['}']))
          from rfl]
        simp [List.append_assoc]
      rw [hform, parseValue_obj_step f2 _]
      have hfield : encodeField (lvl + 1) p =
          '"' :: (escString p.1 ++ '"' :: ':' :: ' ' :: encodeVal (lvl + 1) p.2) := by
        cases p
        rfl
      have hskip : skipWs (('\n' :: indentChars (lvl + 1)) ++ (encodeField (lvl + 1) p ++
          (encodeFieldsTail (lvl + 1) ps ++ ('\n' :: (indentChars lvl ++
            ('}' :: rest)))))) =
          '"' :: ((escString p.1 ++ '"' :: ':' :: ' ' :: encodeVal (lvl + 1) p.2) ++
            (encodeFieldsTail (lvl + 1) ps ++ ('\n' :: (indentChars lvl ++
            ('}' :: rest))))) := by
        rw [skipWs_ws_append _ _ (indent_all_ws (lvl + 1)), hfield, List.cons_append,
          skipWs_cons_nonws _ (by decide)]
      rw [hskip]
      rw [if_neg (by simp)]
      rw [show '"' :: ((escString p.1 ++ '"' :: ':' :: ' ' :: encodeVal (lvl + 1) p.2) ++
          (encodeFieldsTail (lvl + 1) ps ++ ('\n' :: (indentChars lvl ++ ('}' :: rest))))) =
          ('"' :: (escString p.1 ++ '"' :: ':' :: ' ' :: encodeVal (lvl + 1) p.2)) ++
          (encodeFieldsTail (lvl + 1) ps ++ ('\n' :: (indentChars lvl ++ ('}' :: rest))))
        from rfl, ← hfield]
      rw [show encodeField (lvl + 1) p ++ (encodeFieldsTail (lvl + 1) ps ++ ('\n' ::
          (indentChars lvl ++ ('}' :: rest)))) = [] ++ (encodeField (lvl + 1) p ++
          (encodeFieldsTail (lvl + 1) ps ++ ('\n' :: (indentChars lvl ++ ('}' :: rest)))))
        from rfl]
      have hmem2 : fuelMembers (p :: ps) ≤ f2 := by omega
      have hm := members_rt ps p [] (List.mem_cons_self _ _)
        (fun q hq => List.mem_cons_of_mem _ hq) (by intro c2 hc2; cases hc2)
        f2 rest hmem2 hst
      rw [hm]
      dsimp only
      have hnd2 : ((([] : List (List Char × Json)) ++ p :: ps).map Prod.fst).Nodup := by
        rw [List.nil_append]
        exact hnodup
      rw [foldl_dictInsert_eq (p :: ps) [] hnd2, List.nil_append]

theorem fuel_le_encode (v : Json) (hwf : WfJson v) :
    ∀ lvl, fuelVal v ≤ (encodeVal lvl v).length + 1 := by
  induction hwf with
  | null => intro lvl; exact le_trans (Nat.le_refl 1) (by omega)
  | bool b => intro lvl; cases b <;> exact le_trans (Nat.le_refl 1) (by omega)
  | num raw hn =>
    intro lvl
    have h : fuelVal (Json.num raw) = 1 := rfl
    omega
  | str s =>
    intro lvl
    have h : fuelVal (Json.str s) = 1 := rfl
    omega
  | arr l hmem ih =>
    intro lvl
    cases l with
    | nil =>
      have h : fuelVal (Json.arr []) = 1 := rfl
      omega
    | cons v vs =>
      have htail : ∀ vs2, (∀ w ∈ vs2, w ∈ v :: vs) → ∀ lvl2,
          fuelItems vs2 ≤ (encodeTail lvl2 vs2).length + 1 := by
        intro vs2
        induction vs2 with
        | nil =>
          intro _ lvl2
          have h1 : fuelItems ([] : List Json) = 1 := rfl
          have h2 : encodeTail lvl2 ([] : List Json) = [] := rfl
          omega
        | cons w ws2 ih2 =>
          intro hsub lvl2
          have h1 : fuelItems (w :: ws2) = 1 + fuelVal w + fuelItems ws2 := rfl
          have h2 : (encodeTail lvl2 (w :: ws2)).length =
              2 + ((indentChars lvl2).length + ((encodeVal lvl2 w).length +
                (encodeTail lvl2 ws2).length)) := by
            rw [show encodeTail lvl2 (w :: ws2) = ',' :: '\n' :: (indentChars lvl2 ++
              encodeVal lvl2 w ++ encodeTail lvl2 ws2) from rfl]
            simp [List.length_append]
            omega
          have h3 := ih w (hsub w (List.mem_cons_self _ _)) lvl2
          have h4 := ih2 (fun x hx => hsub x (List.mem_cons_of_mem _ hx)) lvl2
          omega
      have h1 : fuelVal (Json.arr (v :: vs)) = 1 + fuelItems (v :: vs) := rfl
      have h2 : fuelItems (v :: vs) = 1 + fuelVal v + fuelItems vs := rfl
      have h3 : (encodeVal lvl (Json.arr (v :: vs))).length =
          2 + ((indentChars (lvl + 1)).length + ((encodeVal (lvl + 1) v).length +
            ((encodeTail (lvl + 1) vs).length + (1 + ((indentChars lvl).length + 1))))) := by
        rw [show encodeVal lvl (Json.arr (v :: vs)) =
          '[' :: '\n' :: (indentChars (lvl + 1) ++ encodeVal (lvl + 1) v ++
            encodeTail (lvl + 1) vs ++ '\n' :: (indentChars lvl ++ [']'])) from rfl]
        simp [List.length_append]
        omega
      have h4 := ih v (List.mem_cons_self _ _) (lvl + 1)
      have h5 := htail vs (fun x hx => List.mem_cons_of_mem _ hx) (lvl + 1)
      omega
  | obj fs hnodup hmemw ih =>
    intro lvl
    cases fs with
    | nil =>
      have h : fuelVal (Json.obj []) = 1 := rfl
      omega
    | cons p ps =>
      have hfld : ∀ q : List Char × Json, q ∈ p :: ps → ∀ lvl2,
          fuelVal q.2 ≤ (encodeField lvl2 q).length + 1 := by
        intro q hq lvl2
        obtain ⟨k0, v0⟩ := q
        have h2 : (encodeField lvl2 (k0, v0)).length =
            4 + ((escString k0).length + (encodeVal lvl2 v0).length) := by
          rw [show encodeField lvl2 (k0, v0) =
            '"' :: (escString k0 ++ '"' :: ':' :: ' ' :: encodeVal lvl2 v0) from rfl]
          simp [List.length_append]
          omega
        have h3 : fuelVal v0 ≤ (encodeVal lvl2 v0).length + 1 := ih (k0, v0) hq lvl2
        have h4 : fuelVal ((k0, v0) : List Char × Json).2 = fuelVal v0 := rfl
        omega
      have htail : ∀ ps2, (∀ q ∈ ps2, q ∈ p :: ps) → ∀ lvl2,
          fuelMembers ps2 ≤ (encodeFieldsTail lvl2 ps2).length + 1 := by
        intro ps2
        induction ps2 with
        | nil =>
          intro _ lvl2
          have h1 : fuelMembers ([] : List (List Char × Json)) = 1 := rfl
          have h2 : encodeFieldsTail lvl2 ([] : List (List Char × Json)) = [] := rfl
          omega
        | cons q qs2 ih2 =>
          intro hsub lvl2
          have h1 : fuelMembers (q :: qs2) = 1 + fuelVal q.2 + fuelMembers qs2 := rfl
          have h2 : (encodeFieldsTail lvl2 (q :: qs2)).length =
              2 + ((indentChars lvl2).length + ((encodeField lvl2 q).length +
                (encodeFieldsTail lvl2 qs2).length)) := by
            rw [show encodeFieldsTail lvl2 (q :: qs2) = ',' :: '\n' :: (indentChars lvl2 ++
              encodeField lvl2 q ++ encodeFieldsTail lvl2 qs2) from rfl]
            simp [List.length_append]
            omega
          have h3 := hfld q (hsub q (List.mem_cons_self _ _)) lvl2
          have h4 := ih2 (fun x hx => hsub x (List.mem_cons_of_mem _ hx)) lvl2
          omega
      have h1 : fuelVal (Json.obj (p :: ps)) = 1 + fuelMembers (p :: ps) := rfl
      have h2 : fuelMembers (p :: ps) = 1 + fuelVal p.2 + fuelMembers ps := rfl
      have h3 : (encodeVal lvl (Json.obj (p :: ps))).length =
          2 + ((indentChars (lvl + 1)).length + ((encodeField (lvl + 1) p).length +
            ((encodeFieldsTail (lvl + 1) ps).length +
              (1 + ((indentChars lvl).length + 1))))) := by
        rw [show encodeVal lvl (Json.obj (p :: ps)) =
          '{' :: '\n' :: (indentChars (lvl + 1) ++ encodeField (lvl + 1) p ++
            encodeFieldsTail (lvl + 1) ps ++ '\n' :: (indentChars lvl ++ ['}'])) from rfl]
        simp [List.length_append]
        omega
      have h4 := hfld p (List.mem_cons_self _ _) (lvl + 1)
      have h5 := htail ps (fun x hx => List.mem_cons_of_mem _ hx) (lvl + 1)
      omega

theorem loads_dumps (v : Json) (hwf : WfJson v) : loads (dumps v) = some v := by
  unfold loads dumps
  have hfuel : fuelVal v ≤ (encodeVal 0 v).length + 1 := fuel_le_encode v hwf 0
  have h := parseValue_encode v hwf ((encodeVal 0 v).length + 1) 0 []
    hfuel (by exact trivial)
  rw [List.append_nil] at h
  rw [h]
  rfl

/-! ## Scanner output is well-formed -/

theorem munchDigits_sound (s : List Char) : ∀ d ∈ (munchDigits s).1, isDig d = true := by
  induction s with
  | nil => intro d hd; cases hd
  | cons c cs ih =>
    intro d hd
    by_cases hc : isDig c
    · simp only [munchDigits, hc, if_true] at hd
      rcases List.mem_cons.mp hd with h | h
      · subst h; exact hc
      · exact ih d h
    · simp only [munchDigits, hc, if_false] at hd
      cases hd

theorem toNat48_eq_zero (c : Char) (h : c.toNat = 48) : c = '0' := by
  have h2 := Char.ofNat_toNat c
  rw [h] at h2
  exact ((show ('0' : Char) = Char.ofNat 48 from by decide).trans h2).symm

theorem parseIntPart_sound (s ip r : List Char) (h : parseIntPart s = some (ip, r)) :
    IntPartTok ip := by
  cases s with
  | nil => cases h
  | cons c cs =>
    by_cases hc0 : c = '0'
    · subst hc0
      simp only [parseIntPart, if_pos rfl] at h
      cases h
      exact Or.inl rfl
    · by_cases hdig : isDig c
      · simp only [parseIntPart, hc0, if_false, hdig, if_true] at h
        cases h
        have hb := digit_bounds c hdig
        refine Or.inr ⟨c, (munchDigits cs).1, rfl, ?_, hb.2, munchDigits_sound cs⟩
        rcases Nat.lt_or_ge 48 c.toNat with hlt | hge
        · omega
        · have : c.toNat = 48 := by omega
          exact absurd (toNat48_eq_zero c this) hc0
      · simp [parseIntPart, hc0, hdig] at h

theorem parseFrac_sound (s : List Char) : FracTok (parseFrac s).1 := by
  cases s with
  | nil => exact Or.inl rfl
  | cons c r =>
    by_cases hc : c = '.'
    · subst hc
      cases r with
      | nil => exact Or.inl rfl
      | cons c2 r2 =>
        by_cases hdig : isDig c2
        · simp only [parseFrac, if_pos rfl, hdig, if_true]
          exact Or.inr ⟨c2 :: (munchDigits r2).1, rfl, by simp, by
            intro d hd
            rcases List.mem_cons.mp hd with h | h
            · subst h; exact hdig
            · exact munchDigits_sound r2 d h⟩
        · simp only [parseFrac, if_pos rfl, hdig, if_false]
          exact Or.inl rfl
    · simp only [parseFrac, hc, if_false]
      exact Or.inl rfl

theorem parseExp_sound (s : List Char) : ExpTok (parseExp s).1 := by
  cases s with
  | nil => exact Or.inl rfl
  | cons e rest =>
    by_cases he : e = 'e' ∨ e = 'E'
    · cases rest with
      | nil => simp only [parseExp, he, if_true]; exact Or.inl rfl
      | cons c r =>
        by_cases hdig : isDig c
        · simp only [parseExp, he, if_true, hdig]
          exact Or.inr ⟨e, [], c :: (munchDigits r).1, by simp, he, Or.inl rfl, by simp, by
            intro d hd
            rcases List.mem_cons.mp hd with h | h
            · subst h; exact hdig
            · exact munchDigits_sound r d h⟩
        · by_cases hsg : c = '+' ∨ c = '-'
          · cases r with
            | nil => simp only [parseExp, he, if_true, hdig, if_false, hsg]; exact Or.inl rfl
            | cons c2 r2 =>
              by_cases hdig2 : isDig c2
              · simp only [parseExp, he, if_true, hdig, if_false, hsg, hdig2]
                refine Or.inr ⟨e, [c], c2 :: (munchDigits r2).1, by simp, he, ?_, by simp, ?_⟩
                · rcases hsg with h | h <;> subst h
                  · exact Or.inr (Or.inl rfl)
                  · exact Or.inr (Or.inr rfl)
                · intro d hd
                  rcases List.mem_cons.mp hd with h | h
                  · subst h; exact hdig2
                  · exact munchDigits_sound r2 d h
              · simp only [parseExp, he, if_true, hdig, if_false, hsg, hdig2]
                exact Or.inl rfl
          · simp only [parseExp, he, if_true, hdig, if_false, hsg]
            exact Or.inl rfl
    · simp only [parseExp, he, if_false]
      exact Or.inl rfl

theorem parseNumberTok_sound (s raw r : List Char)
    (h : parseNumberTok s = some (raw, r)) : IsNumTok raw := by
  cases s with
  | nil => cases h
  | cons c cs =>
    by_cases hc : c = '-'
    · subst hc
      rw [parseNumberTok_cons, if_pos rfl] at h
      cases hip : parseIntPart cs with
      | none => rw [hip] at h; cases h
      | some p =>
        obtain ⟨ip, r2⟩ := p
        rw [hip] at h
        dsimp only at h
        cases h
        exact ⟨['-'], ip, (parseFrac r2).1, (parseExp (parseFrac r2).2).1, rfl,
          Or.inr rfl, parseIntPart_sound cs ip r2 hip, parseFrac_sound r2,
          parseExp_sound (parseFrac r2).2⟩
    · rw [parseNumberTok_cons, if_neg hc] at h
      cases hip : parseIntPart (c :: cs) with
      | none => rw [hip] at h; cases h
      | some p =>
        obtain ⟨ip, r2⟩ := p
        rw [hip] at h
        dsimp only at h
        cases h
        exact ⟨[], ip, (parseFrac r2).1, (parseExp (parseFrac r2).2).1, rfl,
          Or.inl rfl, parseIntPart_sound (c :: cs) ip r2 hip, parseFrac_sound r2,
          parseExp_sound (parseFrac r2).2⟩

theorem dictInsert_nodup (acc : List (List Char × Json)) (kv : List Char × Json)
    (h : (acc.map Prod.fst).Nodup) : ((dictInsert acc kv).map Prod.fst).Nodup := by
  by_cases hany : acc.any (fun p => p.1 = kv.1) = true
  · simp only [dictInsert, hany, if_true]
    have hmap : (acc.map (fun p => if p.1 = kv.1 then (p.1, kv.2) else p)).map Prod.fst =
        acc.map Prod.fst := by
      rw [List.map_map]
      apply List.map_congr_left
      intro x _
      by_cases hx : x.1 = kv.1 <;> simp [hx]
    rw [hmap]
    exact h
  · simp only [dictInsert, if_neg hany]
    rw [List.map_append]
    refine List.Nodup.append h (List.nodup_singleton _) ?_
    intro x hx hx2
    simp only [List.map_cons, List.map_nil, List.mem_singleton] at hx2
    subst hx2
    apply hany
    simp only [List.any_eq_true, decide_eq_true_eq]
    obtain ⟨p, hp, hpe⟩ := List.mem_map.mp hx
    exact ⟨p, hp, hpe⟩

theorem dictInsert_mem (acc : List (List Char × Json)) (kv x : List Char × Json)
    (hx : x ∈ dictInsert acc kv) : x ∈ acc ∨ x = kv := by
  by_cases hany : acc.any (fun p => p.1 = kv.1) = true
  · simp only [dictInsert, hany, if_true] at hx
    obtain ⟨p, hp, hpe⟩ := List.mem_map.mp hx
    by_cases hk : p.1 = kv.1
    · right
      rw [if_pos hk] at hpe
      rw [← hpe, hk]
    · left
      rw [if_neg hk] at hpe
      rw [← hpe]
      exact hp
  · simp only [dictInsert, if_neg hany] at hx
    rcases List.mem_append.mp hx with h | h
    · exact Or.inl h
    · right
      simpa using h

theorem foldl_dictInsert_nodup (pairs : List (List Char × Json)) :
    ∀ acc, (acc.map Prod.fst).Nodup →
      ((List.foldl dictInsert acc pairs).map Prod.fst).Nodup := by
  induction pairs with
  | nil => intro acc h; exact h
  | cons p ps ih =>
    intro acc h
    rw [List.foldl_cons]
    exact ih (dictInsert acc p) (dictInsert_nodup acc p h)

theorem foldl_dictInsert_mem (pairs : List (List Char × Json)) :
    ∀ acc x, x ∈ List.foldl dictInsert acc pairs → x ∈ acc ∨ x ∈ pairs := by
  induction pairs with
  | nil => intro acc x h; exact Or.inl h
  | cons p ps ih =>
    intro acc x h
    rw [List.foldl_cons] at h
    rcases ih (dictInsert acc p) x h with h2 | h2
    · rcases dictInsert_mem acc p x h2 with h3 | h3
      · exact Or.inl h3
      · exact Or.inr (h3 ▸ List.mem_cons_self _ _)
    · exact Or.inr (List.mem_cons_of_mem _ h2)

theorem parseConst_wf (s : List Char) (v : Json) (r : List Char)
    (h : parseConst s = some (v, r)) : WfJson v := by
  unfold parseConst at h
  cases h1 : stripLit (sChars "null") s with
  | some r1 => rw [h1] at h; cases h; exact WfJson.null
  | none =>
    rw [h1] at h
    cases h2 : stripLit (sChars "true") s with
    | some r2 => rw [h2] at h; cases h; exact WfJson.bool true
    | none =>
      rw [h2] at h
      cases h3 : stripLit (sChars "false") s with
      | some r3 => rw [h3] at h; cases h; exact WfJson.bool false
      | none =>
        rw [h3] at h
        cases h4 : stripLit nanChars s with
        | some r4 => rw [h4] at h; cases h; exact WfJson.num _ (Or.inr (Or.inl rfl))
        | none =>
          rw [h4] at h
          cases h5 : stripLit infChars s with
          | some r5 =>
            rw [h5] at h; cases h
            exact WfJson.num _ (Or.inr (Or.inr (Or.inl rfl)))
          | none =>
            rw [h5] at h
            cases h6 : stripLit negInfChars s with
            | some r6 =>
              rw [h6] at h; cases h
              exact WfJson.num _ (Or.inr (Or.inr (Or.inr rfl)))
            | none => rw [h6] at h; cases h

theorem parsers_wf : ∀ f : Nat,
    (∀ s v r, parseValue f s = some (v, r) → WfJson v) ∧
    (∀ s l r, parseItems f s = some (l, r) → ∀ v ∈ l, WfJson v) ∧
    (∀ s ps r, parseMembers f s = some (ps, r) → ∀ p ∈ ps, WfJson p.2) := by
  intro f
  induction f with
  | zero =>
    refine ⟨?_, ?_, ?_⟩
    · intro s v r h; rw [show parseValue 0 s = none from rfl] at h; cases h
    · intro s l r h; rw [show parseItems 0 s = none from rfl] at h; cases h
    · intro s ps r h; rw [show parseMembers 0 s = none from rfl] at h; cases h
  | succ f ih =>
    obtain ⟨ihv, ihi, ihm⟩ := ih
    refine ⟨?_, ?_, ?_⟩
    · intro s v r h
      rw [parseValue] at h
      cases hsk : skipWs s with
      | nil => rw [hsk] at h; cases h
      | cons c r0 =>
        rw [hsk] at h
        dsimp only at h
        by_cases hc1 : c = '{'
        · rw [if_pos hc1] at h
          by_cases hhd : (skipWs r0).head? = some '}'
          · rw [if_pos hhd] at h
            cases h
            exact WfJson.obj [] (by simp) (by intro p hp; cases hp)
          · rw [if_neg hhd] at h
            cases hm : parseMembers f (skipWs r0) with
            | none => rw [hm] at h; cases h
            | some pr =>
              obtain ⟨pairs, r3⟩ := pr
              rw [hm] at h
              dsimp only at h
              cases h
              refine WfJson.obj _ (foldl_dictInsert_nodup pairs [] (by simp)) ?_
              intro p hp
              rcases foldl_dictInsert_mem pairs [] p hp with h2 | h2
              · cases h2
              · exact ihm _ _ _ hm p h2
        · rw [if_neg hc1] at h
          by_cases hc2 : c = '['
          · rw [if_pos hc2] at h
            by_cases hhd : (skipWs r0).head? = some ']'
            · rw [if_pos hhd] at h
              cases h
              exact WfJson.arr [] (by intro v hv; cases hv)
            · rw [if_neg hhd] at h
              cases hi : parseItems f (skipWs r0) with
              | none => rw [hi] at h; cases h
              | some pr =>
                obtain ⟨vs, r3⟩ := pr
                rw [hi] at h
                dsimp only at h
                cases h
                exact WfJson.arr vs (ihi _ _ _ hi)
          · rw [if_neg hc2] at h
            by_cases hc3 : c = '"'
            · rw [if_pos hc3] at h
              cases hsb : parseStringBody r0 with
              | none => rw [hsb] at h; cases h
              | some pr =>
                obtain ⟨str2, r2⟩ := pr
                rw [hsb] at h
                dsimp only at h
                cases h
                exact WfJson.str str2
            · rw [if_neg hc3] at h
              cases hpc : parseConst (c :: r0) with
              | some res =>
                rw [hpc] at h
                dsimp only at h
                cases h
                exact parseConst_wf _ _ _ hpc
              | none =>
                rw [hpc] at h
                dsimp only at h
                cases hnt : parseNumberTok (c :: r0) with
                | none => rw [hnt] at h; cases h
                | some pr =>
                  obtain ⟨raw, r2⟩ := pr
                  rw [hnt] at h
                  dsimp only at h
                  cases h
                  exact WfJson.num raw (Or.inl (parseNumberTok_sound _ _ _ hnt))
    · intro s l r h
      rw [parseItems] at h
      cases hv : parseValue f s with
      | none => rw [hv] at h; cases h
      | some pr =>
        obtain ⟨v0, r0⟩ := pr
        rw [hv] at h
        dsimp only at h
        cases hsk : skipWs r0 with
        | nil => rw [hsk] at h; cases h
        | cons c r2 =>
          rw [hsk] at h
          dsimp only at h
          by_cases hc : c = ','
          · rw [if_pos hc] at h
            cases hi : parseItems f r2 with
            | none => rw [hi] at h; cases h
            | some pr2 =>
              obtain ⟨vs, r3⟩ := pr2
              rw [hi] at h
              dsimp only at h
              cases h
              intro v hvmem
              rcases List.mem_cons.mp hvmem with h2 | h2
              · rw [h2]; exact ihv _ _ _ hv
              · exact ihi _ _ _ hi v h2
          · rw [if_neg hc] at h
            by_cases hc2 : c = ']'
            · rw [if_pos hc2] at h
              cases h
              intro v hvmem
              rcases List.mem_cons.mp hvmem with h2 | h2
              · rw [h2]; exact ihv _ _ _ hv
              · cases h2
            · rw [if_neg hc2] at h; cases h
    · intro s ps r h
      rw [parseMembers] at h
      cases hsk : skipWs s with
      | nil => rw [hsk] at h; cases h
      | cons c r0 =>
        rw [hsk] at h
        dsimp only at h
        by_cases hc : c = '"'
        · rw [if_pos hc] at h
          cases hsb : parseStringBody r0 with
          | none => rw [hsb] at h; cases h
          | some pr =>
            obtain ⟨key, r2⟩ := pr
            rw [hsb] at h
            dsimp only at h
            cases hsk2 : skipWs r2 with
            | nil => rw [hsk2] at h; cases h
            | cons c2 r3 =>
              rw [hsk2] at h
              dsimp only at h
              by_cases hc2 : c2 = ':'
              · rw [if_pos hc2] at h
                cases hv : parseValue f r3 with
                | none => rw [hv] at h; cases h
                | some pr2 =>
                  obtain ⟨v0, r4⟩ := pr2
                  rw [hv] at h
                  dsimp only at h
                  cases hsk3 : skipWs r4 with
                  | nil => rw [hsk3] at h; cases h
                  | cons c3 r5 =>
                    rw [hsk3] at h
                    dsimp only at h
                    by_cases hc3 : c3 = ','
                    · rw [if_pos hc3] at h
                      cases hm : parseMembers f r5 with
                      | none => rw [hm] at h; cases h
                      | some pr3 =>
                        obtain ⟨ps2, r6⟩ := pr3
                        rw [hm] at h
                        dsimp only at h
                        cases h
                        intro p hp
                        rcases List.mem_cons.mp hp with h2 | h2
                        · rw [h2]; exact ihv _ _ _ hv
                        · exact ihm _ _ _ hm p h2
                    · rw [if_neg hc3] at h
                      by_cases hc4 : c3 = '}'
                      · rw [if_pos hc4] at h
                        cases h
                        intro p hp
                        rcases List.mem_cons.mp hp with h2 | h2
                        · rw [h2]; exact ihv _ _ _ hv
                        · cases h2
                      · rw [if_neg hc4] at h; cases h
              · rw [if_neg hc2] at h; cases h
        · rw [if_neg hc] at h; cases h

theorem loads_wf (s : List Char) (v : Json) (h : loads s = some v) : WfJson v := by
  unfold loads at h
  cases hp : parseValue (s.length + 1) s with
  | none => rw [hp] at h; cases h
  | some pr =>
    obtain ⟨v0, rest⟩ := pr
    rw [hp] at h
    dsimp only at h
    by_cases hw : skipWs rest = []
    · rw [if_pos hw] at h
      cases h
      exact (parsers_wf (s.length + 1)).1 _ _ _ hp
    · rw [if_neg hw] at h; cases h

theorem lookupKey_mem (ps : List (List Char × Json)) (k : List Char) (v : Json)
    (h : lookupKey ps k = some v) : ∃ p ∈ ps, p.2 = v := by
  induction ps with
  | nil => cases h
  | cons p ps ih =>
    rw [lookupKey] at h
    by_cases hk : p.1 = k
    · rw [if_pos hk] at h
      cases h
      exact ⟨p, List.mem_cons_self _ _, rfl⟩
    · rw [if_neg hk] at h
      obtain ⟨q, hq, hqe⟩ := ih h
      exact ⟨q, List.mem_cons_of_mem _ hq, hqe⟩

theorem parseResponse_wf (reply : String) : WfJson (parseResponse reply) := by
  have harr : WfJson (Json.arr []) := WfJson.arr [] (by intro v hv; cases hv)
  simp only [parseResponse]
  cases h1 : pyFind (sChars reply) '{' with
  | none => exact harr
  | some i =>
    cases h2 : pyRFind (sChars reply) '}' with
    | none => exact harr
    | some j =>
      dsimp only
      cases h3 : loads (sliceList (sChars reply) i (j + 1)) with
      | none => exact harr
      | some doc =>
        have hdoc := loads_wf _ _ h3
        cases doc with
        | obj fields =>
          dsimp only
          cases hk : lookupKey fields (sChars "inconsistencies") with
          | none => exact harr
          | some v =>
            obtain ⟨p, hp, hpe⟩ := lookupKey_mem fields _ v hk
            cases hdoc with
            | obj _ hnd hwf => exact hpe ▸ hwf p hp
        | null => exact harr
        | bool b => exact harr
        | num raw => exact harr
        | str s2 => exact harr
        | arr l => exact harr

/-! ## Report assembly: decimal rendering and the timestamp format -/

theorem natLit_lt10 (n : Nat) (h : n < 10) : natLit n = [Char.ofNat (48 + n)] := by
  rw [natLit]
  simp [h]

theorem natLit_ge10 (n : Nat) (h : 10 ≤ n) :
    natLit n = natLit (n / 10) ++ [Char.ofNat (48 + n % 10)] := by
  rw [natLit]
  simp [Nat.not_lt.mpr h]

theorem digitChar_toNat (k : Nat) (h : k < 10) : (Char.ofNat (48 + k)).toNat = 48 + k := by
  interval_cases k <;> decide

theorem isDig_digit (k : Nat) (h : k < 10) : isDig (Char.ofNat (48 + k)) = true := by
  interval_cases k <;> decide

theorem natLit_pos_head (n : Nat) (hpos : 0 < n) :
    ∃ c ds, natLit n = c :: ds ∧ 49 ≤ c.toNat ∧ c.toNat ≤ 57 ∧
      ∀ d ∈ ds, isDig d = true := by
  induction n using Nat.strong_induction_on with
  | _ n ih =>
    by_cases h : n < 10
    · refine ⟨Char.ofNat (48 + n), [], natLit_lt10 n h, ?_, ?_, fun d hd => by cases hd⟩
      · rw [digitChar_toNat n h]; omega
      · rw [digitChar_toNat n h]; omega
    · obtain ⟨c, ds, heq, hc1, hc2, hds⟩ :=
        ih (n / 10) (Nat.div_lt_self hpos (by omega)) (by omega)
      refine ⟨c, ds ++ [Char.ofNat (48 + n % 10)], ?_, hc1, hc2, ?_⟩
      · rw [natLit_ge10 n (by omega), heq]; rfl
      · intro d hd
        rcases List.mem_append.mp hd with h2 | h2
        · exact hds d h2
        · rw [List.mem_singleton.mp h2]; exact isDig_digit (n % 10) (by omega)

theorem natLit_numLit (n : Nat) : NumLit (natLit n) := by
  left
  by_cases h0 : n = 0
  · subst h0
    exact ⟨[], ['0'], [], [], by rw [natLit_lt10 0 (by omega)]; decide,
      Or.inl rfl, Or.inl rfl, Or.inl rfl, Or.inl rfl⟩
  · obtain ⟨c, ds, heq, hc1, hc2, hds⟩ := natLit_pos_head n (by omega)
    exact ⟨[], c :: ds, [], [], by rw [heq]; simp, Or.inl rfl,
      Or.inr ⟨c, ds, rfl, hc1, hc2, hds⟩, Or.inl rfl, Or.inl rfl⟩

theorem natLit4 (n : Nat) (h1 : 1000 ≤ n) (h2 : n ≤ 9999) :
    natLit n = [Char.ofNat (48 + n / 1000), Char.ofNat (48 + n / 100 % 10),
      Char.ofNat (48 + n / 10 % 10), Char.ofNat (48 + n % 10)] := by
  have e3 : n / 10 / 10 = n / 100 := by omega
  have e4 : n / 100 / 10 = n / 1000 := by omega
  rw [natLit_ge10 n (by omega), natLit_ge10 (n / 10) (by omega), e3,
      natLit_ge10 (n / 100) (by omega), e4, natLit_lt10 (n / 1000) (by omega)]
  rfl

theorem pad2_eq (n : Nat) (h : n < 100) :
    pad2 n = [Char.ofNat (48 + n / 10), Char.ofNat (48 + n % 10)] := by
  by_cases h10 : n < 10
  · have e1 : n / 10 = 0 := by omega
    have e2 : n % 10 = n := by omega
    rw [pad2, if_pos h10, natLit_lt10 n h10, e1, e2,
      show ('0' : Char) = Char.ofNat (48 + 0) from by decide]
  · rw [pad2, if_neg h10, natLit_ge10 n (by omega), natLit_lt10 (n / 10) (by omega)]
    rfl

theorem strftime_format (t : Tm) (hy1 : 1000 ≤ t.year) (hy2 : t.year ≤ 9999)
    (hmon : t.mon < 100) (hd : t.mday < 100) (hh : t.hour < 100)
    (hmi : t.minute < 100) (hs : t.sec < 100) :
    isTimestampFormat (strftimeReport t) := by
  unfold strftimeReport
  rw [natLit4 t.year hy1 hy2, pad2_eq t.mon hmon, pad2_eq t.mday hd,
      pad2_eq t.hour hh, pad2_eq t.minute hmi, pad2_eq t.sec hs]
  refine ⟨isDig_digit _ (by omega), isDig_digit _ (by omega), isDig_digit _ (by omega),
    isDig_digit _ (by omega), rfl, isDig_digit _ (by omega), isDig_digit _ (by omega),
    rfl, isDig_digit _ (by omega), isDig_digit _ (by omega), rfl,
    isDig_digit _ (by omega), isDig_digit _ (by omega), rfl,
    isDig_digit _ (by omega), isDig_digit _ (by omega), rfl,
    isDig_digit _ (by omega), isDig_digit _ (by omega)⟩

/-! ## C7: report serialization round-trips -/

/-- C7 (confirmed): for every run whose parsed inconsistency sequence is a
list, the emitted report (`output` dict of lines 212-219 serialized with
`json.dump(..., indent=2)`) parses back with `json.loads` to exactly the
object that was written, and that object's `statistics.total_slides` is the
number of entries of the extracted SlideContent mapping, its
`statistics.issues_found` is the length of the inconsistency sequence, its
`statistics.analysis_time` is a string in `YYYY-MM-DD HH:MM:SS` format, and
its `inconsistencies` field is exactly the parsed inconsistency sequence.
The wall-clock bounds hold for every reading `time.strftime` can see between
the years 1000 and 9999. -/
theorem c7_report_roundtrip (reply : String) (sd : List (Nat × String)) (t : Tm)
    (l : List Json) (hresp : parseResponse reply = Json.arr l)
    (hy1 : 1000 ≤ t.year) (hy2 : t.year ≤ 9999) (hmon : t.mon < 100)
    (hd : t.mday < 100) (hh : t.hour < 100) (hmi : t.minute < 100)
    (hs : t.sec < 100) :
    ∃ out, mainOutput sd (parseResponse reply) t = some out ∧
      loads (dumps out) = some out ∧
      (∃ stats, objField out (sChars "statistics") = some stats ∧
        objField stats (sChars "total_slides") = some (Json.num (natLit sd.length)) ∧
        objField stats (sChars "issues_found") = some (Json.num (natLit l.length)) ∧
        ∃ ts, objField stats (sChars "analysis_time") = some (Json.str ts) ∧
          isTimestampFormat ts) ∧
      objField out (sChars "inconsistencies") = some (Json.arr l) := by
  have hwl : ∀ v ∈ l, WfJson v := by
    have h := parseResponse_wf reply
    rw [hresp] at h
    cases h with
    | arr _ h2 => exact h2
  refine ⟨Json.obj [
    (sChars "statistics", Json.obj [
      (sChars "total_slides", Json.num (natLit sd.length)),
      (sChars "issues_found", Json.num (natLit l.length)),
      (sChars "analysis_time", Json.str (strftimeReport t))]),
    (sChars "inconsistencies", Json.arr l)], ?_, ?_, ?_, ?_⟩
  · rw [hresp]; rfl
  · apply loads_dumps
    refine WfJson.obj _ ?_ ?_
    · show ([sChars "statistics", sChars "inconsistencies"] : List (List Char)).Nodup
      decide
    intro p hp
    rcases List.mem_cons.mp hp with h2 | h2
    · rw [h2]
      refine WfJson.obj _ ?_ ?_
      · show ([sChars "total_slides", sChars "issues_found",
          sChars "analysis_time"] : List (List Char)).Nodup
        decide
      intro q hq
      rcases List.mem_cons.mp hq with h3 | h3
      · rw [h3]; exact WfJson.num _ (natLit_numLit sd.length)
      · rcases List.mem_cons.mp h3 with h4 | h4
        · rw [h4]; exact WfJson.num _ (natLit_numLit l.length)
        · rcases List.mem_cons.mp h4 with h5 | h5
          · rw [h5]; exact WfJson.str _
          · cases h5
    · rcases List.mem_cons.mp h2 with h3 | h3
      · rw [h3]; exact WfJson.arr l hwl
      · cases h3
  · exact ⟨_, rfl, rfl, rfl, strftimeReport t, rfl,
      strftime_format t hy1 hy2 hmon hd hh hmi hs⟩
  · rfl

/-- Witness for C7 at a concrete run: one slide, a reply whose parsed
sequence is `[4]`, and a concrete wall-clock reading. -/
theorem c7_report_roundtrip_witness :
    parseResponse "\x7b\"inconsistencies\": [4]\x7d" = Json.arr [Json.num ['4']] ∧
    (1000 ≤ (2026 : Nat) ∧ (2026 : Nat) ≤ 9999 ∧ (10 : Nat) < 100 ∧
      (12 : Nat) < 100 ∧ (9 : Nat) < 100 ∧ (30 : Nat) < 100 ∧ (5 : Nat) < 100) ∧
    (∃ out, mainOutput [(1, "TITLE: Q1 Results")]
        (parseResponse "\x7b\"inconsistencies\": [4]\x7d") ⟨2026, 10, 12, 9, 30, 5⟩ = some out ∧
      loads (dumps out) = some out ∧
      (∃ stats, objField out (sChars "statistics") = some stats ∧
        objField stats (sChars "total_slides") =
          some (Json.num (natLit [(1, "TITLE: Q1 Results")].length)) ∧
        objField stats (sChars "issues_found") =
          some (Json.num (natLit [Json.num ['4']].length)) ∧
        ∃ ts, objField stats (sChars "analysis_time") = some (Json.str ts) ∧
          isTimestampFormat ts) ∧
      objField out (sChars "inconsistencies") = some (Json.arr [Json.num ['4']])) :=
  ⟨rfl, ⟨by omega, by omega, by omega, by omega, by omega, by omega, by omega⟩,
    c7_report_roundtrip "\x7b\"inconsistencies\": [4]\x7d" [(1, "TITLE: Q1 Results")]
      ⟨2026, 10, 12, 9, 30, 5⟩ [Json.num ['4']] rfl (by decide) (by decide) (by decide)
      (by decide) (by decide) (by decide) (by decide)⟩
